import Mathlib

/-!
# Credit payment service: admin pay-tier configuration, seeding, dispute schema,
# settlement, merchant authentication and OIDC claims

A shallow embedding of the Go sources under `internal/` together with the
properties proved about them.  Database access is modelled by explicit state
passing over in-memory tables; storage failures (the HTTP 500 branches) are not
modelled, every query and write succeeds.
-/

namespace Credit

/-! ## `decimal.Decimal` (shopspring/decimal): a coefficient and a base-10 exponent -/

/-- Arbitrary-precision decimal `value * 10 ^ exp`, exactly as the library stores it
(no normalisation of trailing zeros). -/
structure Decimal where
  value : Int
  exp : Int
deriving DecidableEq, Repr

namespace Decimal

/-- The library constant `decimal.Zero = New(0, 1)`. -/
def Zero : Decimal := ⟨0, 1⟩

/-- Library `NewFromInt`: exponent zero. -/
def NewFromInt (v : Int) : Decimal := ⟨v, 0⟩

/-- Library `rescale`: re-express the decimal at exponent `exp`
(multiplying, or truncating toward zero). -/
def rescale (d : Decimal) (exp : Int) : Decimal :=
  if d.exp = exp then d
  else
    let diff := (exp - d.exp).natAbs
    let expScale : Int := 10 ^ diff
    if exp > d.exp then ⟨Int.tdiv d.value expScale, exp⟩
    else ⟨d.value * expScale, exp⟩

/-- Library `RescalePair`: bring both decimals to the smaller exponent. -/
def RescalePair (d1 d2 : Decimal) : Decimal × Decimal :=
  if d1.exp < d2.exp then (d1, d2.rescale d1.exp)
  else if d1.exp > d2.exp then (d1.rescale d2.exp, d2)
  else (d1, d2)

/-- Three-way comparison of integers, `big.Int.Cmp`. -/
def intCmp (a b : Int) : Int := if a < b then -1 else if a = b then 0 else 1

/-- Library `Cmp`. -/
def Cmp (d d2 : Decimal) : Int :=
  if d.exp = d2.exp then intCmp d.value d2.value
  else
    let p := RescalePair d d2
    intCmp p.1.value p.2.value

/-- Library `LessThan`. -/
def LessThan (d d2 : Decimal) : Bool := d.Cmp d2 == -1

/-- Library `GreaterThan`. -/
def GreaterThan (d d2 : Decimal) : Bool := d.Cmp d2 == 1

/-- Library `Exponent`. -/
def Exponent (d : Decimal) : Int := d.exp

/-- Base-10 digits as `strconv.ParseInt` and `big.Int.SetString` read them: at least
one, each in `0`-`9`. -/
def parseDigits (cs : List Char) : Option Nat :=
  if cs.isEmpty then none
  else cs.foldl (fun acc c =>
    match acc with
    | none => none
    | some n => if 48 ≤ c.toNat ∧ c.toNat ≤ 57 then some (n * 10 + (c.toNat - 48)) else none)
    (some 0)

/-- An optional sign followed by digits. -/
def parseSigned : List Char → Option Int
  | '+' :: ds => (parseDigits ds).map Int.ofNat
  | '-' :: ds => (parseDigits ds).map (fun n => -Int.ofNat n)
  | ds => (parseDigits ds).map Int.ofNat

/-- The range of `int32`. -/
def inInt32 (e : Int) : Bool := decide (-2147483648 ≤ e) && decide (e ≤ 2147483647)

/-- Library `NewFromString`, which `UnmarshalJSON` applies to the text of a JSON number:
an optional `e`/`E` exponent is split off, at most one `.` is allowed, the digits around
it form the coefficient and the number of digits after it is subtracted from the
exponent.  Trailing zeros are kept.  `none` stands for an error. -/
def NewFromString (value : String) : Option Decimal :=
  let cs := value.toList
  let split : Option (List Char × Int) :=
    match cs.findIdx? (fun c => c == 'E' || c == 'e') with
    | none => some (cs, 0)
    | some eIndex =>
      match parseSigned (cs.drop (eIndex + 1)) with
      | none => none
      | some expInt => if inInt32 expInt then some (cs.take eIndex, expInt) else none
  match split with
  | none => none
  | some (mantissa, exp0) =>
    if mantissa.count '.' > 1 then none
    else
      let pIndex := mantissa.indexOf '.'
      let intString := mantissa.filter (fun c => c != '.')
      let exp : Int :=
        if pIndex < mantissa.length then exp0 - ((mantissa.length - (pIndex + 1) : Nat) : Int)
        else exp0
      match parseSigned intString with
      | none => none
      | some v => if inInt32 exp then some ⟨v, exp⟩ else none

/-- The rational number a decimal denotes. -/
def toRat (d : Decimal) : ℚ := (d.value : ℚ) * (10 : ℚ) ^ d.exp

end Decimal

/-! ## `internal/apps/admin/user_pay_config` -/

def UserPayConfigNotFound : String := "支付配置不存在"
def LevelRequired : String := "等级不能为空"
def MinScoreRequired : String := "最小分数不能为空"
def ScoreRangeInvalid : String := "分数范围无效：最大分数必须大于最小分数"
def FeeRateInvalid : String := "费率必须在 0 到 1 之间"
def LevelExists : String := "等级已存在"
def AmountDecimalPlacesExceeded : String := "金额小数位数不能超过2位"

/-- The type `model.PayLevel`; its declaration lies outside the sources at hand, only
equality of levels is used. -/
abbrev PayLevel := Nat

/-- The row type `model.UserPayConfig`, with the columns the handlers and the
migrator read or write. -/
structure UserPayConfig where
  ID : Nat
  Level : PayLevel
  MinScore : Int
  MaxScore : Option Int
  DailyLimit : Option Int
  FeeRate : Decimal
  ScoreRate : Decimal
deriving DecidableEq, Repr

/-- The decoded body of a create request (`*int64` is `Option Int`). -/
structure CreateUserPayConfigRequest where
  Level : PayLevel
  MinScore : Int
  MaxScore : Option Int
  DailyLimit : Option Int
  FeeRate : Decimal
deriving DecidableEq, Repr

/-- The decoded body of an update request. -/
structure UpdateUserPayConfigRequest where
  MinScore : Int
  MaxScore : Option Int
  DailyLimit : Option Int
  FeeRate : Decimal
deriving DecidableEq, Repr

/-- The `binding` tags on the score fields, checked by `ShouldBindJSON` after
decoding: `min=0` on `MinScore`, and `omitempty,gtfield=MinScore` on `MaxScore`
(skipped for a nil pointer, otherwise the pointee must exceed `MinScore`).
The result lists the failed (field, tag) pairs.  The `required` tag on `FeeRate`
puts no constraint on a decoded decimal: every `Decimal` is the decoding of a
present `fee_rate`. -/
def bindingFailures (minScore : Int) (maxScore : Option Int) : List (String × String) :=
  (if minScore ≥ 0 then [] else [("MinScore", "min")]) ++
  (match maxScore with
   | none => []
   | some m => if m > minScore then [] else [("MaxScore", "gtfield")])

/-- JSON payload of a response: `util.Err(msg)`, the validator's error text for the
failed tags, `util.OK(config)` or `util.OKNil()`. -/
inductive Body where
  | Err (msg : String)
  | BindErr (failed : List (String × String))
  | OK (config : UserPayConfig)
  | OKNil
deriving DecidableEq, Repr

/-- What the handler writes with `c.JSON(status, body)`. -/
structure Response where
  status : Nat
  body : Body
deriving DecidableEq, Repr

/-- The `user_pay_configs` table together with the next primary key the database
hands out on insert. -/
structure DB where
  rows : List UserPayConfig
  nextID : Nat
deriving DecidableEq, Repr

/-- Insert of a row whose `ID` is unset: the database assigns the next key. -/
def DB.Create (db : DB) (config : UserPayConfig) : UserPayConfig × DB :=
  let stored := { config with ID := db.nextID }
  (stored, { rows := db.rows ++ [stored], nextID := db.nextID + 1 })

/-- Handler `CreateUserPayConfig`. -/
def CreateUserPayConfig (db : DB) (req : CreateUserPayConfigRequest) : Response × DB :=
  match bindingFailures req.MinScore req.MaxScore with
  | f :: fs => (⟨400, .BindErr (f :: fs)⟩, db)
  | [] =>
    if req.FeeRate.LessThan Decimal.Zero || req.FeeRate.GreaterThan (Decimal.NewFromInt 1) then
      (⟨400, .Err FeeRateInvalid⟩, db)
    else if req.FeeRate.Exponent < -2 then
      (⟨400, .Err AmountDecimalPlacesExceeded⟩, db)
    else
      match db.rows.find? (fun r => r.Level == req.Level) with
      | some _ => (⟨400, .Err LevelExists⟩, db)
      | none =>
        let config : UserPayConfig :=
          { ID := 0, Level := req.Level, MinScore := req.MinScore, MaxScore := req.MaxScore,
            DailyLimit := req.DailyLimit, FeeRate := req.FeeRate, ScoreRate := ⟨0, 0⟩ }
        let r := db.Create config
        (⟨200, .OK r.1⟩, r.2)

/-- Handler `UpdateUserPayConfig`; `id` is the path parameter. -/
def UpdateUserPayConfig (db : DB) (id : Nat) (req : UpdateUserPayConfigRequest) :
    Response × DB :=
  match bindingFailures req.MinScore req.MaxScore with
  | f :: fs => (⟨400, .BindErr (f :: fs)⟩, db)
  | [] =>
    if req.FeeRate.LessThan Decimal.Zero || req.FeeRate.GreaterThan (Decimal.NewFromInt 1) then
      (⟨400, .Err FeeRateInvalid⟩, db)
    else if req.FeeRate.Exponent < -2 then
      (⟨400, .Err AmountDecimalPlacesExceeded⟩, db)
    else
      match db.rows.find? (fun r => r.ID == id) with
      | none => (⟨404, .Err UserPayConfigNotFound⟩, db)
      | some config =>
        (⟨200, .OKNil⟩,
         { db with rows := db.rows.map (fun r =>
             if r.ID == config.ID then
               { r with MinScore := req.MinScore, MaxScore := req.MaxScore,
                        FeeRate := req.FeeRate, DailyLimit := req.DailyLimit }
             else r) })

/-- Handler `DeleteUserPayConfig`; `id` is the path parameter. -/
def DeleteUserPayConfig (db : DB) (id : Nat) : Response × DB :=
  match db.rows.find? (fun r => r.ID == id) with
  | none => (⟨404, .Err UserPayConfigNotFound⟩, db)
  | some config =>
    (⟨200, .OKNil⟩, { db with rows := db.rows.filter (fun r => !(r.ID == config.ID)) })

/-- One administrative call against the pay-tier table. -/
inductive AdminCall where
  | create (req : CreateUserPayConfigRequest)
  | update (id : Nat) (req : UpdateUserPayConfigRequest)
  | delete (id : Nat)
deriving DecidableEq, Repr

/-- Dispatch of one call to its handler. -/
def AdminCall.run (db : DB) : AdminCall → Response × DB
  | .create req => CreateUserPayConfig db req
  | .update id req => UpdateUserPayConfig db id req
  | .delete id => DeleteUserPayConfig db id

/-- The table after a sequence of calls, whatever each call answered. -/
def runCalls (db : DB) : List AdminCall → DB
  | [] => db
  | call :: calls => runCalls (call.run db).2 calls

/-- The table after a sequence of calls each of which answered HTTP 200;
`none` as soon as one call is refused. -/
def runSuccessfulCalls (db : DB) : List AdminCall → Option DB
  | [] => some db
  | call :: calls =>
    if (call.run db).1.status = 200 then runSuccessfulCalls (call.run db).2 calls else none

/-! ## `internal/db/migrator` -/

/-- The row type `model.SystemConfig`. -/
structure SystemConfig where
  Key : String
  Value : String
  Description : String
deriving DecidableEq, Repr

/-- The three key constants of package `model` used by the migrator; their
declarations lie outside the sources at hand, so they are taken as parameters. -/
structure ConfigKeys where
  ConfigKeyMerchantOrderExpireMinutes : String
  ConfigKeyWebsiteOrderExpireMinutes : String
  ConfigKeyDisputeTimeWindowHours : String

/-- Function `initSystemConfigs`: seeds the `system_config` table when it holds no row. -/
def initSystemConfigs (k : ConfigKeys) (table : List SystemConfig) : List SystemConfig :=
  let count := table.length
  if count > 0 then table
  else
    let defaultConfigs : List SystemConfig := [
      { Key := k.ConfigKeyMerchantOrderExpireMinutes, Value := "5",
        Description := "商家订单过期时间（分钟）" },
      { Key := k.ConfigKeyWebsiteOrderExpireMinutes, Value := "10",
        Description := "网站订单过期时间（分钟）" },
      { Key := k.ConfigKeyDisputeTimeWindowHours, Value := "168",
        Description := "商家争议时间窗口（小时）" }]
    table ++ defaultConfigs

/-- The four level constants of package `model` used by the migrator; their
declarations lie outside the sources at hand, so they are taken as parameters. -/
structure PayLevels where
  PayLevelFree : PayLevel
  PayLevelBasic : PayLevel
  PayLevelStandard : PayLevel
  PayLevelPremium : PayLevel

/-- The literal `defaultConfigs` of `initUserPayConfigs`. -/
def defaultUserPayConfigs (lv : PayLevels) : List UserPayConfig := [
  { ID := 0, Level := lv.PayLevelFree, MinScore := 0, MaxScore := some 2000,
    DailyLimit := some 1000, FeeRate := Decimal.Zero, ScoreRate := Decimal.Zero },
  { ID := 0, Level := lv.PayLevelBasic, MinScore := 2000, MaxScore := some 10000,
    DailyLimit := some 6000, FeeRate := Decimal.Zero, ScoreRate := Decimal.Zero },
  { ID := 0, Level := lv.PayLevelStandard, MinScore := 10000, MaxScore := some 50000,
    DailyLimit := some 25000, FeeRate := Decimal.Zero, ScoreRate := Decimal.Zero },
  { ID := 0, Level := lv.PayLevelPremium, MinScore := 50000, MaxScore := none,
    DailyLimit := none, FeeRate := Decimal.Zero, ScoreRate := Decimal.Zero }]

/-- Function `initUserPayConfigs`: seeds the `user_pay_configs` table when it holds
no row; the batch insert stores the rows in order. -/
def initUserPayConfigs (lv : PayLevels) (db : DB) : DB :=
  let count := db.rows.length
  if count > 0 then db
  else (defaultUserPayConfigs lv).foldl (fun d config => (d.Create config).2) db

/-- The freshly migrated, still empty `user_pay_configs` table. -/
def emptyDB : DB := ⟨[], 1⟩

/-- The half-open score interval `[min_score, max_score)` of a tier, open-ended when
`max_score` is absent. -/
def UserPayConfig.covers (t : UserPayConfig) (score : Int) : Bool :=
  decide (t.MinScore ≤ score) &&
    (match t.MaxScore with
     | none => true
     | some m => decide (score < m))

/-- A tier set partitions the score axis: every score from 0 upward lies in the
interval of exactly one tier (no gap, no overlap). -/
def PartitionsScores (rows : List UserPayConfig) : Prop :=
  ∀ score : Int, 0 ≤ score → ∃! t, t ∈ rows ∧ t.covers score = true

/-- The range condition each stored tier meets on its own. -/
def UserPayConfig.rangeValid (t : UserPayConfig) : Prop :=
  0 ≤ t.MinScore ∧ ∀ m, t.MaxScore = some m → t.MinScore < m

/-- No two rows of the table share a level. -/
def LevelsDistinct (db : DB) : Prop := (db.rows.map (fun r => r.Level)).Nodup

/-! ## `internal/model/disputes.go` -/

/-- The Go type `DisputeStatus`, a string. -/
abbrev DisputeStatus := String

def DisputeStatusDisputing : DisputeStatus := "disputing"
def DisputeStatusRefund : DisputeStatus := "refund"
def DisputeStatusClosed : DisputeStatus := "closed"

/-- The status constants the model declares, in order of declaration. -/
def disputeStatuses : List DisputeStatus :=
  [DisputeStatusDisputing, DisputeStatusRefund, DisputeStatusClosed]

/-- The stored columns of `Dispute`.  The two username fields are tagged `gorm:"-"`
and are not columns; the two timestamps are filled by the database clock and take no
part in any constraint, they are left out. -/
structure Dispute where
  ID : Nat
  OrderID : Nat
  InitiatorUserID : Nat
  Reason : String
  Status : DisputeStatus
  HandlerUserID : Option Nat
deriving DecidableEq, Repr

/-- The `disputes` table with the next auto-increment key. -/
structure DisputeTable where
  rows : List Dispute
  nextID : Nat
deriving DecidableEq, Repr

/-- The unique index `idx_dispute_order` on `order_id`: may `row` be written when the
other rows are `others`? -/
def uniqueOrderID (others : List Dispute) (row : Dispute) : Bool :=
  others.all (fun r => !(r.OrderID == row.OrderID))

/-- The row as the database stores it on insert: the key is assigned, and a status left
at the zero value takes the column default. -/
def Dispute.asStored (d : Dispute) (key : Nat) : Dispute :=
  { d with ID := key,
           Status := if d.Status = "" then DisputeStatusDisputing else d.Status }

/-- Insert of a dispute under the struct tags: `primaryKey;autoIncrement` assigns the
key, `default:'disputing'` fills a status left at the zero value, and the unique index
`idx_dispute_order` refuses a second row for the same order (`none`).  The length limits
of the columns are not modelled; they only refuse further writes. -/
def DisputeTable.Create (t : DisputeTable) (d : Dispute) : Option (Dispute × DisputeTable) :=
  let stored : Dispute := d.asStored t.nextID
  if uniqueOrderID t.rows stored then
    some (stored, { rows := t.rows ++ [stored], nextID := t.nextID + 1 })
  else none

/-- Rewrite of the row with key `id` to `f row` (the key itself is kept); the unique
index refuses the write when another row already has the new `order_id`. -/
def DisputeTable.Update (t : DisputeTable) (id : Nat) (f : Dispute → Dispute) :
    Option DisputeTable :=
  match t.rows.find? (fun r => r.ID == id) with
  | none => some t
  | some old =>
    let new : Dispute := { f old with ID := old.ID }
    if uniqueOrderID (t.rows.filter (fun r => !(r.ID == id))) new then
      some { t with rows := t.rows.map (fun r => if r.ID == id then new else r) }
    else none

/-- Removal of the row with key `id`. -/
def DisputeTable.Delete (t : DisputeTable) (id : Nat) : DisputeTable :=
  { t with rows := t.rows.filter (fun r => !(r.ID == id)) }

/-- One write against the `disputes` table. -/
inductive DisputeWrite where
  | create (d : Dispute)
  | update (id : Nat) (f : Dispute → Dispute)
  | delete (id : Nat)

/-- The table after one write; a refused write leaves it as it was. -/
def DisputeWrite.run (t : DisputeTable) : DisputeWrite → DisputeTable
  | .create d => match t.Create d with
    | some r => r.2
    | none => t
  | .update id f => match t.Update id f with
    | some t' => t'
    | none => t
  | .delete id => t.Delete id

/-- The table after a sequence of writes, starting from `t`. -/
def runDisputeWrites (t : DisputeTable) : List DisputeWrite → DisputeTable
  | [] => t
  | w :: ws => runDisputeWrites (w.run t) ws

/-- The freshly migrated, still empty `disputes` table. -/
def emptyDisputeTable : DisputeTable := ⟨[], 1⟩

/-! ## `internal/apps/payment`: error texts and settlement -/

def OrderNotFound : String := "订单不存在"
def OrderStatusInvalid : String := "订单状态不允许支付"
def OrderExpired : String := "订单已过期"
def InsufficientBalance : String := "余额不足"
def MerchantInfoNotFound : String := "商户信息不存在"
def OrderNoFormatError : String := "订单号格式错误"
def AmountMustBeGreaterThanZero : String := "金额必须大于0"
def CannotPayOwnOrder : String := "不能支付自己的订单"
def DailyLimitExceeded : String := "超过当日支付限额"

/-- Modelled from the spec: the rounding of a computed fee to 2 fractional digits, half
away from zero (§3, Money); the fee computation is not among the sources. -/
def round2 (q : ℚ) : ℚ :=
  if 0 ≤ q then (⌊q * 100 + 1 / 2⌋ : ℚ) / 100 else -((⌊-q * 100 + 1 / 2⌋ : ℚ) / 100)

/-- Modelled from the spec: `SettlementLedger.settle` (§4.4), whose code is not among the
sources.  Debit `amount` from the payer (failing with `InsufficientBalance` when the
payer balance is below `amount`), compute `fee = round2 (amount * fee_rate)`, credit
`amount - fee` to the payee.  Returns the credited amount and the new balances. -/
def settle (balance : Nat → ℚ) (payer payee : Nat) (amount feeRate : ℚ) :
    Except String (ℚ × (Nat → ℚ)) :=
  if balance payer < amount then .error InsufficientBalance
  else
    let debited := Function.update balance payer (balance payer - amount)
    let fee := round2 (amount * feeRate)
    let credited := amount - fee
    .ok (credited, Function.update debited payee (debited payee + credited))

/-! ## `internal/apps/payment/middlewares.go` -/

/-- A Go string or byte slice: the list of its bytes, each below 256. -/
abbrev Bytes := List Nat

/-- The bytes of an ASCII literal. -/
def str (s : String) : Bytes := s.toList.map Char.toNat

/-- The alphabet of `base64.StdEncoding`. -/
def encodeStd : String := "ABCDEFGHIJKLMNOPQRSTUVWXYZabcdefghijklmnopqrstuvwxyz0123456789+/"

/-- Entry `i` of the encoder table. -/
def encodeChar (i : Nat) : Nat := (str encodeStd).getD i 0

/-- The decoder table: the index of `c` in the alphabet, `0xff` for every other byte. -/
def decodeMap (c : Nat) : Nat :=
  let i := (str encodeStd).indexOf c
  if i < 64 then i else 255

/-- Standard-library `EncodeToString` of `base64.StdEncoding` (with `=` padding). -/
def EncodeToString : Bytes → Bytes
  | b0 :: b1 :: b2 :: rest =>
    let val := b0 * 65536 + b1 * 256 + b2
    encodeChar (val / 262144 % 64) :: encodeChar (val / 4096 % 64) ::
      encodeChar (val / 64 % 64) :: encodeChar (val % 64) :: EncodeToString rest
  | [b0, b1] =>
    let val := b0 * 65536 + b1 * 256
    [encodeChar (val / 262144 % 64), encodeChar (val / 4096 % 64),
     encodeChar (val / 64 % 64), 61]
  | [b0] =>
    let val := b0 * 65536
    [encodeChar (val / 262144 % 64), encodeChar (val / 4096 % 64), 61, 61]
  | [] => []

/-- Skip carriage returns and line feeds. -/
def skipNewlines : Bytes → Bytes
  | [] => []
  | c :: rest => if c = 10 ∨ c = 13 then skipNewlines rest else c :: rest

/-- The bytes of one quantum: `dlen` sextets (missing ones zero) give `dlen - 1` bytes. -/
def quantumBytes (dbuf : List Nat) (dlen : Nat) : Bytes :=
  let val := dbuf.getD 0 0 * 262144 + dbuf.getD 1 0 * 4096 + dbuf.getD 2 0 * 64 + dbuf.getD 3 0
  [val / 65536 % 256, val / 256 % 256, val % 256].take (dlen - 1)

/-- Standard-library `Decode` of `base64.StdEncoding` (padded, not strict), as one pass
over the input: `dbuf` holds the sextets of the quantum being read.  An alphabet byte is
appended to the quantum, and the fourth one emits three bytes; CR and LF are skipped; any
other byte except `=` is an error; `=` is an error after fewer than two sextets, after two
sextets it must be followed by a second `=`, and after the padding only CR and LF may
follow.  Running out of input inside a quantum is an error.  (The 8-byte and 4-byte fast
paths of the library decode the same quanta and are not modelled apart.) -/
def decodeLoop : Bytes → List Nat → Option Bytes
  | [], dbuf => if dbuf.length = 0 then some [] else none
  | c :: rest, dbuf =>
    let out := decodeMap c
    if out ≠ 255 then
      if dbuf.length = 3 then
        (decodeLoop rest []).map (fun tail => quantumBytes (dbuf ++ [out]) 4 ++ tail)
      else decodeLoop rest (dbuf ++ [out])
    else if c = 10 ∨ c = 13 then decodeLoop rest dbuf
    else if c ≠ 61 then none
    else
      match dbuf.length with
      | 0 => none
      | 1 => none
      | 2 =>
        match skipNewlines rest with
        | [] => none
        | p :: rest' =>
          if p ≠ 61 then none
          else if skipNewlines rest' = [] then some (quantumBytes dbuf 2) else none
      | _ => if skipNewlines rest = [] then some (quantumBytes dbuf 3) else none

/-- Standard-library `DecodeString`: `none` stands for a non-nil error. -/
def DecodeString (s : Bytes) : Option Bytes := decodeLoop s []

/-- Split at the first occurrence of the byte `sep` (`strings.Index` and the two slices
around it); `none` when `sep` does not occur. -/
def cut (sep : Nat) : Bytes → Option (Bytes × Bytes)
  | [] => none
  | c :: rest =>
    if c = sep then some ([], rest)
    else (cut sep rest).map (fun p => (c :: p.1, p.2))

/-- Standard-library `strings.SplitN(s, sep, n)` for a one-byte separator and `n ≥ 0`:
at most `n` pieces, the last one holding the unsplit remainder. -/
def SplitN (s : Bytes) (sep : Nat) : Nat → List Bytes
  | 0 => []
  | 1 => [s]
  | n + 2 =>
    match cut sep s with
    | none => [s]
    | some (a, b) => a :: SplitN b sep (n + 1)

/-- The row type `model.MerchantAPIKey`, with the columns the middleware queries. -/
structure MerchantAPIKey where
  ID : Nat
  ClientID : Bytes
  ClientSecret : Bytes
deriving DecidableEq, Repr

/-- What the middleware does with the request: abort with a status and an error text, or
store the key in the context and run the next handler. -/
inductive AuthOutcome where
  | Abort (status : Nat) (msg : String)
  | Next (apiKey : MerchantAPIKey)
deriving DecidableEq, Repr

/-- The first part of `RequireMerchantAuth`: from the `Authorization` header (empty when
the header is missing) to the pair `(clientID, clientSecret)`, or the text of the 401
response. -/
def parseCredentials (authHeader : Bytes) : Except String (Bytes × Bytes) :=
  if authHeader = [] then .error "缺少认证信息"
  else
    match SplitN authHeader 32 2 with
    | [p0, p1] =>
      if p0 ≠ str "Basic" then .error "认证格式错误"
      else
        match DecodeString p1 with
        | none => .error "认证信息解码失败"
        | some decoded =>
          match SplitN decoded 58 2 with
          | [clientID, clientSecret] => .ok (clientID, clientSecret)
          | _ => .error "认证信息格式错误"
    | _ => .error "认证格式错误"

/-- Middleware `RequireMerchantAuth` over the stored API keys. -/
def RequireMerchantAuth (keys : List MerchantAPIKey) (authHeader : Bytes) : AuthOutcome :=
  match parseCredentials authHeader with
  | .error msg => .Abort 401 msg
  | .ok (clientID, clientSecret) =>
    match keys.find? (fun k => k.ClientSecret == clientSecret && k.ClientID == clientID) with
    | none => .Abort 401 "认证失败"
    | some apiKey => .Next apiKey

/-! ## `internal/apps/oauth/logics.go` -/

/-- The constant `maxUint64` of `strconv`. -/
def maxUint64 : Nat := 18446744073709551615

/-- The digit loop of the standard-library `strconv.ParseUint(s, 10, 64)`: `n` is the
`uint64` accumulator (arithmetic modulo `2 ^ 64 = 18446744073709551616`), `none` stands
for a syntax or range error.  A decimal digit has its value; a letter has the value
`lower(c) - 'a' + 10`, which the base 10 refuses; any other byte is refused. -/
def parseUintLoop : Bytes → Nat → Option Nat
  | [], n => some n
  | c :: rest, n =>
    let digit : Option Nat :=
      if 48 ≤ c ∧ c ≤ 57 then some (c - 48)
      else if 97 ≤ (c ||| 32) ∧ (c ||| 32) ≤ 122 then some ((c ||| 32) - 97 + 10)
      else none
    match digit with
    | none => none
    | some d =>
      if d ≥ 10 then none
      else if n ≥ maxUint64 / 10 + 1 then none
      else
        let n10 := n * 10 % 18446744073709551616
        let n1 := (n10 + d) % 18446744073709551616
        if n1 < n10 ∨ n1 > maxUint64 then none
        else parseUintLoop rest n1

/-- Standard-library `strconv.ParseUint(s, 10, 64)`; `none` stands for a non-nil error. -/
def ParseUint (s : Bytes) : Option Nat :=
  if s = [] then none else parseUintLoop s 0

/-- The number a string of decimal digits writes. -/
def decimalValue (s : Bytes) : Nat := s.foldl (fun n c => n * 10 + (c - 48)) 0

/-- A base-10 unsigned integer that fits in 64 bits: at least one byte, every byte a
decimal digit, and the number written is below `2 ^ 64`. -/
def IsUint64Decimal (s : Bytes) : Prop :=
  s ≠ [] ∧ (∀ c ∈ s, 48 ≤ c ∧ c ≤ 57) ∧ decimalValue s < 18446744073709551616

/-- The claims of an OIDC ID token (`int` is `Int`, strings are byte strings). -/
structure OIDCClaims where
  Sub : Bytes
  Username : Bytes
  Login : Bytes
  Name : Bytes
  Email : Bytes
  AvatarURL : Bytes
  Active : Bool
  TrustLevel : Int
  Silenced : Bool
deriving DecidableEq, Repr

/-- The fields of `model.OAuthUserInfo` that `ToOAuthUserInfo` sets.  The type
`model.TrustLevel` is declared outside the sources at hand; it is the parameter `TL`. -/
structure OAuthUserInfo (TL : Type) where
  Id : Nat
  Username : Bytes
  Name : Bytes
  Active : Bool
  AvatarUrl : Bytes
  TrustLevel : TL
deriving DecidableEq, Repr

/-- Method `OIDCClaims.ToOAuthUserInfo`.  The conversion `model.TrustLevel(c.TrustLevel)`
from `int` to the type declared outside the sources at hand is the parameter
`toTrustLevel`; the error is the text of `errors.New`. -/
def OIDCClaims.ToOAuthUserInfo {TL : Type} (toTrustLevel : Int → TL) (c : OIDCClaims) :
    Except Bytes (OAuthUserInfo TL) :=
  match ParseUint c.Sub with
  | none => .error (str "invalid sub claim: " ++ c.Sub)
  | some id =>
    let username := if c.Username = [] then c.Login else c.Username
    .ok { Id := id, Username := username, Name := c.Name, Active := c.Active,
          AvatarUrl := c.AvatarURL, TrustLevel := toTrustLevel c.TrustLevel }

/-! ## Facts about decimal comparison -/

theorem Decimal.rescale_exp (d : Decimal) (e : Int) : (d.rescale e).exp = e := by
  unfold Decimal.rescale
  split
  · assumption
  · dsimp only
    split <;> rfl

theorem Decimal.rescale_toRat (d : Decimal) (e : Int) (h : e ≤ d.exp) :
    (d.rescale e).toRat = d.toRat := by
  unfold Decimal.rescale
  split
  · rfl
  · rename_i hne
    have hlt : e < d.exp := lt_of_le_of_ne h (fun h' => hne h'.symm)
    dsimp only
    rw [if_neg (by omega)]
    unfold Decimal.toRat
    dsimp only
    have hn : ((e - d.exp).natAbs : Int) = d.exp - e := by omega
    have h10 : (10 : ℚ) ≠ 0 := by norm_num
    have : d.exp = ((e - d.exp).natAbs : Int) + e := by omega
    conv_rhs => rw [this, zpow_add₀ h10, zpow_natCast]
    push_cast
    ring

theorem Decimal.toRat_lt_iff_of_exp_eq (a b : Decimal) (h : a.exp = b.exp) :
    a.toRat < b.toRat ↔ a.value < b.value := by
  unfold Decimal.toRat
  rw [h]
  have hpos : (0 : ℚ) < (10 : ℚ) ^ b.exp := zpow_pos (by norm_num) _
  rw [mul_lt_mul_right hpos]
  exact Int.cast_lt

theorem Decimal.RescalePair_spec (a b : Decimal) :
    (a.RescalePair b).1.toRat = a.toRat ∧ (a.RescalePair b).2.toRat = b.toRat ∧
      (a.RescalePair b).1.exp = (a.RescalePair b).2.exp := by
  unfold Decimal.RescalePair
  split
  · rename_i h
    exact ⟨rfl, Decimal.rescale_toRat b a.exp (le_of_lt h), (Decimal.rescale_exp b a.exp).symm⟩
  · split
    · rename_i h1 h2
      exact ⟨Decimal.rescale_toRat a b.exp (le_of_lt h2), rfl, Decimal.rescale_exp a b.exp⟩
    · rename_i h1 h2
      exact ⟨rfl, rfl, by show a.exp = b.exp; omega⟩

theorem Decimal.intCmp_eq_neg_one (a b : Int) : Decimal.intCmp a b = -1 ↔ a < b := by
  unfold Decimal.intCmp
  split
  · simp [*]
  · split <;> simp [*]

theorem Decimal.intCmp_eq_one (a b : Int) : Decimal.intCmp a b = 1 ↔ b < a := by
  unfold Decimal.intCmp
  split
  · constructor
    · intro h; omega
    · intro h; omega
  · split
    · constructor
      · intro h; omega
      · intro h; omega
    · constructor
      · intro _; omega
      · intro _; rfl

theorem Decimal.Cmp_eq_neg_one (a b : Decimal) : a.Cmp b = -1 ↔ a.toRat < b.toRat := by
  unfold Decimal.Cmp
  split
  · rename_i h
    rw [Decimal.intCmp_eq_neg_one, Decimal.toRat_lt_iff_of_exp_eq a b h]
  · dsimp only
    obtain ⟨h1, h2, h3⟩ := Decimal.RescalePair_spec a b
    rw [Decimal.intCmp_eq_neg_one, ← Decimal.toRat_lt_iff_of_exp_eq _ _ h3, h1, h2]

theorem Decimal.Cmp_eq_one (a b : Decimal) : a.Cmp b = 1 ↔ b.toRat < a.toRat := by
  unfold Decimal.Cmp
  split
  · rename_i h
    rw [Decimal.intCmp_eq_one, Decimal.toRat_lt_iff_of_exp_eq b a h.symm]
  · dsimp only
    obtain ⟨h1, h2, h3⟩ := Decimal.RescalePair_spec a b
    rw [Decimal.intCmp_eq_one, ← Decimal.toRat_lt_iff_of_exp_eq _ _ h3.symm, h1, h2]

theorem Decimal.LessThan_Zero_iff (d : Decimal) :
    d.LessThan Decimal.Zero = true ↔ d.toRat < 0 := by
  unfold Decimal.LessThan
  rw [beq_iff_eq, Decimal.Cmp_eq_neg_one]
  simp [Decimal.toRat, Decimal.Zero]

theorem Decimal.GreaterThan_one_iff (d : Decimal) :
    d.GreaterThan (Decimal.NewFromInt 1) = true ↔ 1 < d.toRat := by
  unfold Decimal.GreaterThan
  rw [beq_iff_eq, Decimal.Cmp_eq_one]
  simp [Decimal.toRat, Decimal.NewFromInt]

/-- The fee-rate range test of both handlers, as a statement about the value. -/
theorem feeRate_out_of_range_iff (d : Decimal) :
    (d.LessThan Decimal.Zero || d.GreaterThan (Decimal.NewFromInt 1)) = true ↔
      d.toRat < 0 ∨ 1 < d.toRat := by
  rw [Bool.or_eq_true, Decimal.LessThan_Zero_iff, Decimal.GreaterThan_one_iff]

/-! ## The admin handlers after binding -/

theorem CreateUserPayConfig_of_bound (db : DB) (req : CreateUserPayConfigRequest)
    (h : bindingFailures req.MinScore req.MaxScore = []) :
    CreateUserPayConfig db req =
      if req.FeeRate.LessThan Decimal.Zero || req.FeeRate.GreaterThan (Decimal.NewFromInt 1) then
        (⟨400, .Err FeeRateInvalid⟩, db)
      else if req.FeeRate.Exponent < -2 then
        (⟨400, .Err AmountDecimalPlacesExceeded⟩, db)
      else
        match db.rows.find? (fun r => r.Level == req.Level) with
        | some _ => (⟨400, .Err LevelExists⟩, db)
        | none =>
          (⟨200, .OK { ID := db.nextID, Level := req.Level, MinScore := req.MinScore,
                       MaxScore := req.MaxScore, DailyLimit := req.DailyLimit,
                       FeeRate := req.FeeRate, ScoreRate := ⟨0, 0⟩ }⟩,
           { rows := db.rows ++ [(⟨db.nextID, req.Level, req.MinScore, req.MaxScore,
                       req.DailyLimit, req.FeeRate, ⟨0, 0⟩⟩ : UserPayConfig)],
             nextID := db.nextID + 1 }) := by
  unfold CreateUserPayConfig
  rw [h]
  rfl

theorem UpdateUserPayConfig_of_bound (db : DB) (id : Nat) (req : UpdateUserPayConfigRequest)
    (h : bindingFailures req.MinScore req.MaxScore = []) :
    UpdateUserPayConfig db id req =
      if req.FeeRate.LessThan Decimal.Zero || req.FeeRate.GreaterThan (Decimal.NewFromInt 1) then
        (⟨400, .Err FeeRateInvalid⟩, db)
      else if req.FeeRate.Exponent < -2 then
        (⟨400, .Err AmountDecimalPlacesExceeded⟩, db)
      else
        match db.rows.find? (fun r => r.ID == id) with
        | none => (⟨404, .Err UserPayConfigNotFound⟩, db)
        | some config =>
          (⟨200, .OKNil⟩,
           { db with rows := db.rows.map (fun r =>
               if r.ID == config.ID then
                 { r with MinScore := req.MinScore, MaxScore := req.MaxScore,
                          FeeRate := req.FeeRate, DailyLimit := req.DailyLimit }
               else r) }) := by
  unfold UpdateUserPayConfig
  rw [h]

theorem AmountDecimalPlacesExceeded_ne_FeeRateInvalid :
    AmountDecimalPlacesExceeded ≠ FeeRateInvalid := by decide

theorem LevelExists_ne_FeeRateInvalid : LevelExists ≠ FeeRateInvalid := by decide

theorem LevelExists_ne_AmountDecimalPlacesExceeded :
    LevelExists ≠ AmountDecimalPlacesExceeded := by decide

theorem CreateUserPayConfig_feeRateInvalid_iff (db : DB) (req : CreateUserPayConfigRequest)
    (h : bindingFailures req.MinScore req.MaxScore = []) :
    (CreateUserPayConfig db req).1 = ⟨400, .Err FeeRateInvalid⟩ ↔
      req.FeeRate.toRat < 0 ∨ 1 < req.FeeRate.toRat := by
  rw [CreateUserPayConfig_of_bound db req h, ← feeRate_out_of_range_iff]
  by_cases hr :
      (req.FeeRate.LessThan Decimal.Zero || req.FeeRate.GreaterThan (Decimal.NewFromInt 1)) = true
  · simp [hr]
  · simp only [hr, if_false, iff_false, Bool.false_eq_true]
    split
    · simp [AmountDecimalPlacesExceeded_ne_FeeRateInvalid]
    · split <;> simp [LevelExists_ne_FeeRateInvalid]

theorem UpdateUserPayConfig_feeRateInvalid_iff (db : DB) (id : Nat)
    (req : UpdateUserPayConfigRequest)
    (h : bindingFailures req.MinScore req.MaxScore = []) :
    (UpdateUserPayConfig db id req).1 = ⟨400, .Err FeeRateInvalid⟩ ↔
      req.FeeRate.toRat < 0 ∨ 1 < req.FeeRate.toRat := by
  rw [UpdateUserPayConfig_of_bound db id req h, ← feeRate_out_of_range_iff]
  by_cases hr :
      (req.FeeRate.LessThan Decimal.Zero || req.FeeRate.GreaterThan (Decimal.NewFromInt 1)) = true
  · simp [hr]
  · simp only [hr, if_false, iff_false, Bool.false_eq_true]
    split
    · simp [AmountDecimalPlacesExceeded_ne_FeeRateInvalid]
    · split <;> simp

/-- C1: for a request that passed JSON binding, `CreateUserPayConfig` and
`UpdateUserPayConfig` answer HTTP 400 with `FeeRateInvalid` exactly when the fee rate
is below 0 or above 1; a fee rate equal to 0 or to 1 is not rejected by this check. -/
theorem feeRate_range_rejection (db : DB) (id : Nat) (creq : CreateUserPayConfigRequest)
    (ureq : UpdateUserPayConfigRequest)
    (hc : bindingFailures creq.MinScore creq.MaxScore = [])
    (hu : bindingFailures ureq.MinScore ureq.MaxScore = []) :
    ((CreateUserPayConfig db creq).1 = ⟨400, .Err FeeRateInvalid⟩ ↔
        creq.FeeRate.toRat < 0 ∨ 1 < creq.FeeRate.toRat) ∧
    ((UpdateUserPayConfig db id ureq).1 = ⟨400, .Err FeeRateInvalid⟩ ↔
        ureq.FeeRate.toRat < 0 ∨ 1 < ureq.FeeRate.toRat) ∧
    (creq.FeeRate.toRat = 0 ∨ creq.FeeRate.toRat = 1 →
        (CreateUserPayConfig db creq).1 ≠ ⟨400, .Err FeeRateInvalid⟩) ∧
    (ureq.FeeRate.toRat = 0 ∨ ureq.FeeRate.toRat = 1 →
        (UpdateUserPayConfig db id ureq).1 ≠ ⟨400, .Err FeeRateInvalid⟩) := by
  refine ⟨CreateUserPayConfig_feeRateInvalid_iff db creq hc,
    UpdateUserPayConfig_feeRateInvalid_iff db id ureq hu, ?_, ?_⟩
  · intro h0 hrej
    rw [CreateUserPayConfig_feeRateInvalid_iff db creq hc] at hrej
    rcases h0 with h0 | h0 <;> rw [h0] at hrej <;> norm_num at hrej
  · intro h0 hrej
    rw [UpdateUserPayConfig_feeRateInvalid_iff db id ureq hu] at hrej
    rcases h0 with h0 | h0 <;> rw [h0] at hrej <;> norm_num at hrej

/-- Instance of C1: a create request at fee rate 1 (the upper boundary) passes the check,
an update request at fee rate 1.01 is refused, both against the empty table. -/
theorem feeRate_range_rejection_witness :
    bindingFailures 0 (some 10) = [] ∧ bindingFailures 5 none = [] ∧
    (Decimal.mk 1 0).toRat = 1 ∧ 1 < (Decimal.mk 101 (-2)).toRat ∧
    (CreateUserPayConfig emptyDB ⟨7, 0, some 10, none, ⟨1, 0⟩⟩).1 ≠
      ⟨400, .Err FeeRateInvalid⟩ ∧
    (UpdateUserPayConfig emptyDB 3 ⟨5, none, none, ⟨101, -2⟩⟩).1 =
      ⟨400, .Err FeeRateInvalid⟩ :=
  have h1 : (Decimal.mk 1 0).toRat = 1 := by norm_num [Decimal.toRat]
  have h2 : 1 < (Decimal.mk 101 (-2)).toRat := by norm_num [Decimal.toRat]
  have h := feeRate_range_rejection emptyDB 3 ⟨7, 0, some 10, none, ⟨1, 0⟩⟩
    ⟨5, none, none, ⟨101, -2⟩⟩ (by decide) (by decide)
  ⟨by decide, by decide, h1, h2, h.2.2.1 (Or.inr h1), h.2.1.mpr (Or.inr h2)⟩

theorem Decimal.hundredfold_int_of_exp_ge (d : Decimal) (h : -2 ≤ d.exp) :
    ∃ k : ℤ, d.toRat * 100 = (k : ℚ) := by
  refine ⟨d.value * 10 ^ (d.exp + 2).toNat, ?_⟩
  unfold Decimal.toRat
  have h10 : (10 : ℚ) ≠ 0 := by norm_num
  have he : ((d.exp + 2).toNat : ℤ) = d.exp + 2 := Int.toNat_of_nonneg (by omega)
  have hp : (10 : ℚ) ^ (d.exp + 2).toNat = (10 : ℚ) ^ d.exp * 100 := by
    rw [← zpow_natCast, he, zpow_add₀ h10]
    norm_num
  push_cast
  rw [hp]
  ring

theorem CreateUserPayConfig_decimalPlaces_iff (db : DB) (req : CreateUserPayConfigRequest)
    (h : bindingFailures req.MinScore req.MaxScore = [])
    (hr : 0 ≤ req.FeeRate.toRat ∧ req.FeeRate.toRat ≤ 1) :
    (CreateUserPayConfig db req).1 = ⟨400, .Err AmountDecimalPlacesExceeded⟩ ↔
      req.FeeRate.exp < -2 := by
  have hin : ¬ ((req.FeeRate.LessThan Decimal.Zero ||
      req.FeeRate.GreaterThan (Decimal.NewFromInt 1)) = true) := by
    rw [feeRate_out_of_range_iff]
    intro hc
    rcases hc with hc | hc
    · exact absurd hr.1 (not_le.mpr hc)
    · exact absurd hr.2 (not_le.mpr hc)
  rw [CreateUserPayConfig_of_bound db req h]
  simp only [hin, if_false, Bool.false_eq_true, Decimal.Exponent]
  by_cases he : req.FeeRate.exp < -2
  · simp [he]
  · simp only [he, if_false, iff_false]
    split <;> simp [LevelExists_ne_AmountDecimalPlacesExceeded]

theorem UpdateUserPayConfig_decimalPlaces_iff (db : DB) (id : Nat)
    (req : UpdateUserPayConfigRequest)
    (h : bindingFailures req.MinScore req.MaxScore = [])
    (hr : 0 ≤ req.FeeRate.toRat ∧ req.FeeRate.toRat ≤ 1) :
    (UpdateUserPayConfig db id req).1 = ⟨400, .Err AmountDecimalPlacesExceeded⟩ ↔
      req.FeeRate.exp < -2 := by
  have hin : ¬ ((req.FeeRate.LessThan Decimal.Zero ||
      req.FeeRate.GreaterThan (Decimal.NewFromInt 1)) = true) := by
    rw [feeRate_out_of_range_iff]
    intro hc
    rcases hc with hc | hc
    · exact absurd hr.1 (not_le.mpr hc)
    · exact absurd hr.2 (not_le.mpr hc)
  rw [UpdateUserPayConfig_of_bound db id req h]
  simp only [hin, if_false, Bool.false_eq_true, Decimal.Exponent]
  by_cases he : req.FeeRate.exp < -2
  · simp [he]
  · simp only [he, if_false, iff_false]
    split <;> simp

/-- C2 fails as stated: the fee rate written 0.100 decodes to coefficient 100 with
exponent -3; it lies in [0,1] and its value 0.1 has a single fractional digit (a hundred
times it is the integer 10), yet both handlers answer HTTP 400 with
`AmountDecimalPlacesExceeded`. -/
theorem decimalPlaces_value_counterexample :
    Decimal.NewFromString "0.100" = some ⟨100, -3⟩ ∧
    bindingFailures 0 none = [] ∧
    0 ≤ (Decimal.mk 100 (-3)).toRat ∧ (Decimal.mk 100 (-3)).toRat ≤ 1 ∧
    (Decimal.mk 100 (-3)).toRat * 100 = ((10 : ℤ) : ℚ) ∧
    (CreateUserPayConfig emptyDB ⟨7, 0, none, none, ⟨100, -3⟩⟩).1 =
      ⟨400, .Err AmountDecimalPlacesExceeded⟩ ∧
    (UpdateUserPayConfig emptyDB 1 ⟨0, none, none, ⟨100, -3⟩⟩).1 =
      ⟨400, .Err AmountDecimalPlacesExceeded⟩ := by
  refine ⟨by decide, by decide, ?_, ?_, ?_, by decide, by decide⟩ <;>
    norm_num [Decimal.toRat]

/-- C2 as amended: for a bound request whose fee rate lies in [0,1], both handlers answer
HTTP 400 with `AmountDecimalPlacesExceeded` exactly when the exponent of the decoded
decimal is below -2 (more than 2 fractional digits as written, trailing zeros included);
a fee rate that passes the check has a value with at most 2 fractional digits. -/
theorem decimalPlaces_rejection (db : DB) (id : Nat) (creq : CreateUserPayConfigRequest)
    (ureq : UpdateUserPayConfigRequest)
    (hc : bindingFailures creq.MinScore creq.MaxScore = [])
    (hu : bindingFailures ureq.MinScore ureq.MaxScore = [])
    (hcr : 0 ≤ creq.FeeRate.toRat ∧ creq.FeeRate.toRat ≤ 1)
    (hur : 0 ≤ ureq.FeeRate.toRat ∧ ureq.FeeRate.toRat ≤ 1) :
    ((CreateUserPayConfig db creq).1 = ⟨400, .Err AmountDecimalPlacesExceeded⟩ ↔
        creq.FeeRate.exp < -2) ∧
    ((UpdateUserPayConfig db id ureq).1 = ⟨400, .Err AmountDecimalPlacesExceeded⟩ ↔
        ureq.FeeRate.exp < -2) ∧
    ((CreateUserPayConfig db creq).1 ≠ ⟨400, .Err AmountDecimalPlacesExceeded⟩ →
        ∃ k : ℤ, creq.FeeRate.toRat * 100 = (k : ℚ)) ∧
    ((UpdateUserPayConfig db id ureq).1 ≠ ⟨400, .Err AmountDecimalPlacesExceeded⟩ →
        ∃ k : ℤ, ureq.FeeRate.toRat * 100 = (k : ℚ)) := by
  refine ⟨CreateUserPayConfig_decimalPlaces_iff db creq hc hcr,
    UpdateUserPayConfig_decimalPlaces_iff db id ureq hu hur, ?_, ?_⟩
  · intro hne
    rw [ne_eq, CreateUserPayConfig_decimalPlaces_iff db creq hc hcr] at hne
    exact Decimal.hundredfold_int_of_exp_ge _ (by omega)
  · intro hne
    rw [ne_eq, UpdateUserPayConfig_decimalPlaces_iff db id ureq hu hur] at hne
    exact Decimal.hundredfold_int_of_exp_ge _ (by omega)

/-- Instance of the amended C2: a create request at fee rate 0.05 passes the check and a
hundred times its value is the integer 5; an update request at fee rate 0.125 is refused. -/
theorem decimalPlaces_rejection_witness :
    bindingFailures 0 none = [] ∧ bindingFailures 3 (some 9) = [] ∧
    (0 ≤ (Decimal.mk 5 (-2)).toRat ∧ (Decimal.mk 5 (-2)).toRat ≤ 1) ∧
    (0 ≤ (Decimal.mk 125 (-3)).toRat ∧ (Decimal.mk 125 (-3)).toRat ≤ 1) ∧
    (CreateUserPayConfig emptyDB ⟨7, 0, none, none, ⟨5, -2⟩⟩).1 ≠
      ⟨400, .Err AmountDecimalPlacesExceeded⟩ ∧
    (UpdateUserPayConfig emptyDB 1 ⟨3, some 9, none, ⟨125, -3⟩⟩).1 =
      ⟨400, .Err AmountDecimalPlacesExceeded⟩ ∧
    (∃ k : ℤ, (Decimal.mk 5 (-2)).toRat * 100 = (k : ℚ)) :=
  have h1 : 0 ≤ (Decimal.mk 5 (-2)).toRat ∧ (Decimal.mk 5 (-2)).toRat ≤ 1 := by
    constructor <;> norm_num [Decimal.toRat]
  have h2 : 0 ≤ (Decimal.mk 125 (-3)).toRat ∧ (Decimal.mk 125 (-3)).toRat ≤ 1 := by
    constructor <;> norm_num [Decimal.toRat]
  have h := decimalPlaces_rejection emptyDB 1 ⟨7, 0, none, none, ⟨5, -2⟩⟩
    ⟨3, some 9, none, ⟨125, -3⟩⟩ (by decide) (by decide) h1 h2
  have hc : (CreateUserPayConfig emptyDB ⟨7, 0, none, none, ⟨5, -2⟩⟩).1 ≠
      ⟨400, .Err AmountDecimalPlacesExceeded⟩ := fun e => absurd (h.1.mp e) (by decide)
  ⟨by decide, by decide, h1, h2, hc, h.2.1.mpr (by decide), h.2.2.1 hc⟩

theorem bindingFailures_of_invalid (minScore : Int) (maxScore : Option Int)
    (h : minScore < 0 ∨ ∃ m, maxScore = some m ∧ m ≤ minScore) :
    ∃ f fs, bindingFailures minScore maxScore = f :: fs := by
  unfold bindingFailures
  rcases h with h | ⟨m, hm, hle⟩
  · rw [if_neg (by omega)]
    exact ⟨_, _, rfl⟩
  · subst hm
    by_cases h0 : minScore ≥ 0
    · rw [if_pos h0]
      simp only [List.nil_append]
      rw [if_neg (by omega)]
      exact ⟨_, _, rfl⟩
    · rw [if_neg h0]
      exact ⟨_, _, rfl⟩

/-- C3: `CreateUserPayConfig` and `UpdateUserPayConfig` answer HTTP 400 and leave the table
unchanged for every request whose `max_score` is present and not above `min_score`, and
for every request whose `min_score` is negative; with `max_score` absent the score tags
accept every `min_score` from 0 upward. -/
theorem scoreRange_rejection (db : DB) (id : Nat) (creq : CreateUserPayConfigRequest)
    (ureq : UpdateUserPayConfigRequest) :
    ((creq.MinScore < 0 ∨ ∃ m, creq.MaxScore = some m ∧ m ≤ creq.MinScore) →
        (CreateUserPayConfig db creq).1.status = 400 ∧ (CreateUserPayConfig db creq).2 = db) ∧
    ((ureq.MinScore < 0 ∨ ∃ m, ureq.MaxScore = some m ∧ m ≤ ureq.MinScore) →
        (UpdateUserPayConfig db id ureq).1.status = 400 ∧
          (UpdateUserPayConfig db id ureq).2 = db) ∧
    (∀ minScore : Int, 0 ≤ minScore → bindingFailures minScore none = []) := by
  refine ⟨?_, ?_, ?_⟩
  · intro h
    obtain ⟨f, fs, hf⟩ := bindingFailures_of_invalid _ _ h
    unfold CreateUserPayConfig
    rw [hf]
    exact ⟨rfl, rfl⟩
  · intro h
    obtain ⟨f, fs, hf⟩ := bindingFailures_of_invalid _ _ h
    unfold UpdateUserPayConfig
    rw [hf]
    exact ⟨rfl, rfl⟩
  · intro minScore h
    unfold bindingFailures
    rw [if_pos h]
    rfl

/-- Instance of C3: a create request with `max_score` equal to `min_score` and an update
request with a negative `min_score` are refused and leave the empty table empty; an
open-ended request at `min_score` 0 passes the score tags. -/
theorem scoreRange_rejection_witness :
    ((CreateUserPayConfig emptyDB ⟨7, 5, some 5, none, ⟨0, 0⟩⟩).1.status = 400 ∧
      (CreateUserPayConfig emptyDB ⟨7, 5, some 5, none, ⟨0, 0⟩⟩).2 = emptyDB) ∧
    ((UpdateUserPayConfig emptyDB 1 ⟨-1, none, none, ⟨0, 0⟩⟩).1.status = 400 ∧
      (UpdateUserPayConfig emptyDB 1 ⟨-1, none, none, ⟨0, 0⟩⟩).2 = emptyDB) ∧
    bindingFailures 0 none = [] :=
  have h := scoreRange_rejection emptyDB 1 ⟨7, 5, some 5, none, ⟨0, 0⟩⟩
    ⟨-1, none, none, ⟨0, 0⟩⟩
  ⟨h.1 (Or.inr ⟨5, rfl, le_refl _⟩), h.2.1 (Or.inl (by decide)), h.2.2 0 (le_refl _)⟩

/-! ## The seeded tiers -/

theorem initUserPayConfigs_emptyDB_rows (lv : PayLevels) :
    (initUserPayConfigs lv emptyDB).rows =
      [(⟨1, lv.PayLevelFree, 0, some 2000, some 1000, Decimal.Zero, Decimal.Zero⟩ :
          UserPayConfig),
       ⟨2, lv.PayLevelBasic, 2000, some 10000, some 6000, Decimal.Zero, Decimal.Zero⟩,
       ⟨3, lv.PayLevelStandard, 10000, some 50000, some 25000, Decimal.Zero, Decimal.Zero⟩,
       ⟨4, lv.PayLevelPremium, 50000, none, none, Decimal.Zero, Decimal.Zero⟩] := rfl

theorem seeded_covers_cases (lv : PayLevels) (score : Int) (t : UserPayConfig)
    (hm : t ∈ (initUserPayConfigs lv emptyDB).rows) (hc : t.covers score = true) :
    (t.ID = 1 ∧ t.MinScore = 0 ∧ 0 ≤ score ∧ score < 2000) ∨
    (t.ID = 2 ∧ t.MinScore = 2000 ∧ 2000 ≤ score ∧ score < 10000) ∨
    (t.ID = 3 ∧ t.MinScore = 10000 ∧ 10000 ≤ score ∧ score < 50000) ∨
    (t.ID = 4 ∧ t.MinScore = 50000 ∧ t.MaxScore = none ∧ 50000 ≤ score) := by
  rw [initUserPayConfigs_emptyDB_rows] at hm
  simp only [List.mem_cons, List.mem_singleton, List.not_mem_nil, or_false] at hm
  rcases hm with h | h | h | h <;> subst h <;>
    simp only [UserPayConfig.covers, Bool.and_eq_true, decide_eq_true_eq] at hc <;>
    simp <;> omega

/-- C4: the four tiers seeded by `initUserPayConfigs`, stored in ascending order of
`min_score` (0, 2000, 10000, 50000), are such that every score from 0 upward lies in the
half-open interval of exactly one of them; scores from 50000 upward fall in the last tier,
which has no `max_score`; and a tier covering a boundary score 2000, 10000 or 50000 is the
tier whose `min_score` is that score. -/
theorem seeded_tiers_partition (lv : PayLevels) :
    PartitionsScores (initUserPayConfigs lv emptyDB).rows ∧
    (initUserPayConfigs lv emptyDB).rows.map (fun t => t.MinScore) = [0, 2000, 10000, 50000] ∧
    (∀ score : Int, 50000 ≤ score → ∀ t ∈ (initUserPayConfigs lv emptyDB).rows,
        t.covers score = true → t.MinScore = 50000 ∧ t.MaxScore = none) ∧
    (∀ b : Int, b = 2000 ∨ b = 10000 ∨ b = 50000 →
        ∀ t ∈ (initUserPayConfigs lv emptyDB).rows, t.covers b = true → t.MinScore = b) := by
  refine ⟨?_, rfl, ?_, ?_⟩
  · intro score h0
    have huniq : ∀ t1 t2 : UserPayConfig, t1 ∈ (initUserPayConfigs lv emptyDB).rows →
        t2 ∈ (initUserPayConfigs lv emptyDB).rows → t1.ID = t2.ID → t1 = t2 := by
      intro t1 t2 h1 h2 hid
      rw [initUserPayConfigs_emptyDB_rows] at h1 h2
      simp only [List.mem_cons, List.mem_singleton, List.not_mem_nil, or_false] at h1 h2
      rcases h1 with h1 | h1 | h1 | h1 <;> rcases h2 with h2 | h2 | h2 | h2 <;>
        subst h1 <;> subst h2 <;> first | rfl | (exfalso; simp at hid)
    have hex : ∃ t, t ∈ (initUserPayConfigs lv emptyDB).rows ∧ t.covers score = true := by
      rw [initUserPayConfigs_emptyDB_rows]
      by_cases h1 : score < 2000
      · exact ⟨_, List.mem_cons_self _ _, by simp [UserPayConfig.covers, h0, h1]⟩
      · by_cases h2 : score < 10000
        · exact ⟨_, List.mem_cons_of_mem _ (List.mem_cons_self _ _),
            by simp [UserPayConfig.covers, h2]; omega⟩
        · by_cases h3 : score < 50000
          · exact ⟨_, List.mem_cons_of_mem _ (List.mem_cons_of_mem _ (List.mem_cons_self _ _)),
              by simp [UserPayConfig.covers, h3]; omega⟩
          · exact ⟨_, List.mem_cons_of_mem _ (List.mem_cons_of_mem _
              (List.mem_cons_of_mem _ (List.mem_cons_self _ _))),
              by simp [UserPayConfig.covers]; omega⟩
    obtain ⟨t, htm, htc⟩ := hex
    refine ⟨t, ⟨htm, htc⟩, ?_⟩
    rintro t' ⟨htm', htc'⟩
    apply huniq t' t htm' htm
    have c1 := seeded_covers_cases lv score t htm htc
    have c2 := seeded_covers_cases lv score t' htm' htc'
    omega
  · intro score hs t htm htc
    have c := seeded_covers_cases lv score t htm htc
    rcases c with c | c | c | c
    · omega
    · omega
    · omega
    · exact ⟨c.2.1, c.2.2.1⟩
  · intro b hb t htm htc
    have c := seeded_covers_cases lv b t htm htc
    omega

/-- Instance of C4 at the boundary score 2000 with levels 0 to 3: exactly one seeded tier
covers it, and every seeded tier covering it has `min_score` 2000. -/
theorem seeded_tiers_partition_witness :
    (0 : Int) ≤ 2000 ∧
    (∃! t, t ∈ (initUserPayConfigs ⟨0, 1, 2, 3⟩ emptyDB).rows ∧ t.covers 2000 = true) ∧
    (∀ t ∈ (initUserPayConfigs ⟨0, 1, 2, 3⟩ emptyDB).rows,
        t.covers 2000 = true → t.MinScore = 2000) :=
  ⟨by decide, (seeded_tiers_partition ⟨0, 1, 2, 3⟩).1 2000 (by decide),
   (seeded_tiers_partition ⟨0, 1, 2, 3⟩).2.2.2 2000 (Or.inl rfl)⟩

/-! ## Invariants of the pay-tier table under the admin handlers -/

theorem bindingFailures_eq_nil_iff (minScore : Int) (maxScore : Option Int) :
    bindingFailures minScore maxScore = [] ↔
      0 ≤ minScore ∧ ∀ m, maxScore = some m → minScore < m := by
  unfold bindingFailures
  cases maxScore with
  | none =>
    by_cases h : minScore ≥ 0
    · simp [h]
    · simp [h]
  | some m =>
    by_cases h : minScore ≥ 0
    · by_cases h2 : m > minScore
      · simp [h, h2]
      · simp [h, h2]
    · simp [h]

theorem CreateUserPayConfig_rows (db : DB) (req : CreateUserPayConfigRequest) :
    (CreateUserPayConfig db req).2 = db ∨
    (bindingFailures req.MinScore req.MaxScore = [] ∧
      (∀ r ∈ db.rows, r.Level ≠ req.Level) ∧
      (CreateUserPayConfig db req).2.rows = db.rows ++
        [(⟨db.nextID, req.Level, req.MinScore, req.MaxScore, req.DailyLimit, req.FeeRate,
            ⟨0, 0⟩⟩ : UserPayConfig)]) := by
  by_cases hb : bindingFailures req.MinScore req.MaxScore = []
  · rw [CreateUserPayConfig_of_bound db req hb]
    split
    · exact Or.inl rfl
    · split
      · exact Or.inl rfl
      · split
        · exact Or.inl rfl
        · rename_i hnone
          refine Or.inr ⟨hb, ?_, rfl⟩
          intro r hr hlev
          have := List.find?_eq_none.mp hnone r hr
          simp [hlev] at this
  · left
    unfold CreateUserPayConfig
    split
    · rfl
    · rename_i h
      exact absurd h hb

theorem UpdateUserPayConfig_rows (db : DB) (id : Nat) (req : UpdateUserPayConfigRequest) :
    (UpdateUserPayConfig db id req).2 = db ∨
    (bindingFailures req.MinScore req.MaxScore = [] ∧
      ∃ key : Nat, (UpdateUserPayConfig db id req).2.rows = db.rows.map (fun r =>
        if r.ID == key then
          { r with MinScore := req.MinScore, MaxScore := req.MaxScore,
                   FeeRate := req.FeeRate, DailyLimit := req.DailyLimit }
        else r)) := by
  by_cases hb : bindingFailures req.MinScore req.MaxScore = []
  · rw [UpdateUserPayConfig_of_bound db id req hb]
    split
    · exact Or.inl rfl
    · split
      · exact Or.inl rfl
      · split
        · exact Or.inl rfl
        · rename_i config _
          exact Or.inr ⟨hb, config.ID, rfl⟩
  · left
    unfold UpdateUserPayConfig
    split
    · rfl
    · rename_i h
      exact absurd h hb

theorem DeleteUserPayConfig_rows (db : DB) (id : Nat) :
    ∃ p : UserPayConfig → Bool, (DeleteUserPayConfig db id).2.rows = db.rows.filter p := by
  unfold DeleteUserPayConfig
  split
  · exact ⟨fun _ => true, by simp⟩
  · rename_i config _
    exact ⟨fun r => !(r.ID == config.ID), rfl⟩

theorem AdminCall.run_rangeValid (db : DB) (call : AdminCall)
    (h : ∀ t ∈ db.rows, t.rangeValid) : ∀ t ∈ (call.run db).2.rows, t.rangeValid := by
  cases call with
  | create req =>
    show ∀ t ∈ (CreateUserPayConfig db req).2.rows, t.rangeValid
    rcases CreateUserPayConfig_rows db req with he | ⟨hb, _, hrows⟩
    · rw [he]; exact h
    · rw [hrows]
      intro t ht
      rcases List.mem_append.mp ht with ht | ht
      · exact h t ht
      · rw [List.mem_singleton] at ht
        subst ht
        exact (bindingFailures_eq_nil_iff _ _).mp hb
  | update id req =>
    show ∀ t ∈ (UpdateUserPayConfig db id req).2.rows, t.rangeValid
    rcases UpdateUserPayConfig_rows db id req with he | ⟨hb, key, hrows⟩
    · rw [he]; exact h
    · rw [hrows]
      intro t ht
      obtain ⟨r, hr, hrt⟩ := List.mem_map.mp ht
      by_cases hk : (r.ID == key) = true
      · rw [if_pos hk] at hrt
        subst hrt
        exact (bindingFailures_eq_nil_iff _ _).mp hb
      · rw [if_neg hk] at hrt
        subst hrt
        exact h r hr
  | delete id =>
    show ∀ t ∈ (DeleteUserPayConfig db id).2.rows, t.rangeValid
    obtain ⟨p, hp⟩ := DeleteUserPayConfig_rows db id
    rw [hp]
    intro t ht
    exact h t (List.mem_filter.mp ht).1

theorem AdminCall.run_levelsDistinct (db : DB) (call : AdminCall) (h : LevelsDistinct db) :
    LevelsDistinct (call.run db).2 := by
  unfold LevelsDistinct at *
  cases call with
  | create req =>
    show ((CreateUserPayConfig db req).2.rows.map (fun r => r.Level)).Nodup
    rcases CreateUserPayConfig_rows db req with he | ⟨_, hfresh, hrows⟩
    · rw [he]; exact h
    · rw [hrows, List.map_append, List.map_singleton]
      refine List.Nodup.append h (List.nodup_singleton _) ?_
      intro l hl hl2
      rw [List.mem_singleton] at hl2
      obtain ⟨r, hr, hrl⟩ := List.mem_map.mp hl
      exact hfresh r hr (hrl.trans hl2)
  | update id req =>
    show ((UpdateUserPayConfig db id req).2.rows.map (fun r => r.Level)).Nodup
    rcases UpdateUserPayConfig_rows db id req with he | ⟨_, key, hrows⟩
    · rw [he]; exact h
    · rw [hrows, List.map_map]
      have hf : ((fun r : UserPayConfig => r.Level) ∘ (fun r : UserPayConfig =>
          if r.ID == key then
            { r with MinScore := req.MinScore, MaxScore := req.MaxScore,
                     FeeRate := req.FeeRate, DailyLimit := req.DailyLimit }
          else r)) = (fun r : UserPayConfig => r.Level) := by
        funext r
        simp only [Function.comp]
        split <;> rfl
      rw [hf]
      exact h
  | delete id =>
    show ((DeleteUserPayConfig db id).2.rows.map (fun r => r.Level)).Nodup
    obtain ⟨p, hp⟩ := DeleteUserPayConfig_rows db id
    rw [hp]
    exact List.Nodup.sublist (List.Sublist.map _ (List.filter_sublist _)) h

theorem runSuccessfulCalls_rangeValid (calls : List AdminCall) :
    ∀ (db db' : DB), (∀ t ∈ db.rows, t.rangeValid) →
      runSuccessfulCalls db calls = some db' → ∀ t ∈ db'.rows, t.rangeValid := by
  induction calls with
  | nil =>
    intro db db' h hrun
    simp only [runSuccessfulCalls, Option.some.injEq] at hrun
    subst hrun
    exact h
  | cons call calls ih =>
    intro db db' h hrun
    simp only [runSuccessfulCalls] at hrun
    split at hrun
    · exact ih _ _ (AdminCall.run_rangeValid db call h) hrun
    · exact absurd hrun (by simp)

theorem runCalls_levelsDistinct (calls : List AdminCall) :
    ∀ db : DB, LevelsDistinct db → LevelsDistinct (runCalls db calls) := by
  induction calls with
  | nil => intro db h; exact h
  | cons call calls ih =>
    intro db h
    exact ih _ (AdminCall.run_levelsDistinct db call h)

theorem seeded_rangeValid (lv : PayLevels) :
    ∀ t ∈ (initUserPayConfigs lv emptyDB).rows, t.rangeValid := by
  intro t ht
  rw [initUserPayConfigs_emptyDB_rows] at ht
  simp only [List.mem_cons, List.mem_singleton, List.not_mem_nil, or_false] at ht
  rcases ht with h | h | h | h <;> subst h <;> constructor <;>
    simp [UserPayConfig.rangeValid]

/-- C5 fails as stated: from the seeded tiers (levels 0 to 3), the successful call
`DeleteUserPayConfig` on row 2 leaves the scores 2000 to 9999 in no tier (a gap), and the
successful call `CreateUserPayConfig` of a fifth level with range `[0, ∞)` puts score 0 in
two tiers (an overlap); neither resulting table partitions the score axis. -/
theorem reachable_tiers_not_partition :
    (∃ db, runSuccessfulCalls (initUserPayConfigs ⟨0, 1, 2, 3⟩ emptyDB) [.delete 2] = some db ∧
      ¬ PartitionsScores db.rows) ∧
    (∃ db, runSuccessfulCalls (initUserPayConfigs ⟨0, 1, 2, 3⟩ emptyDB)
        [.create ⟨4, 0, none, none, ⟨0, 0⟩⟩] = some db ∧ ¬ PartitionsScores db.rows) := by
  constructor
  · refine ⟨(DeleteUserPayConfig (initUserPayConfigs ⟨0, 1, 2, 3⟩ emptyDB) 2).2, by decide, ?_⟩
    intro h
    obtain ⟨t, ⟨hm, hc⟩, _⟩ := h 5000 (by decide)
    have hrows : (DeleteUserPayConfig (initUserPayConfigs ⟨0, 1, 2, 3⟩ emptyDB) 2).2.rows =
        [(⟨1, 0, 0, some 2000, some 1000, Decimal.Zero, Decimal.Zero⟩ : UserPayConfig),
         ⟨3, 2, 10000, some 50000, some 25000, Decimal.Zero, Decimal.Zero⟩,
         ⟨4, 3, 50000, none, none, Decimal.Zero, Decimal.Zero⟩] := by decide
    change t ∈ (DeleteUserPayConfig (initUserPayConfigs ⟨0, 1, 2, 3⟩ emptyDB) 2).2.rows at hm
    rw [hrows] at hm
    simp only [List.mem_cons, List.mem_singleton, List.not_mem_nil, or_false] at hm
    rcases hm with h | h | h <;> subst h <;> revert hc <;> decide
  · refine ⟨(CreateUserPayConfig (initUserPayConfigs ⟨0, 1, 2, 3⟩ emptyDB)
        ⟨4, 0, none, none, ⟨0, 0⟩⟩).2, by decide, ?_⟩
    intro h
    obtain ⟨t, _, huniq⟩ := h 0 (by decide)
    have hrows : (CreateUserPayConfig (initUserPayConfigs ⟨0, 1, 2, 3⟩ emptyDB)
        ⟨4, 0, none, none, ⟨0, 0⟩⟩).2.rows =
        [(⟨1, 0, 0, some 2000, some 1000, Decimal.Zero, Decimal.Zero⟩ : UserPayConfig),
         ⟨2, 1, 2000, some 10000, some 6000, Decimal.Zero, Decimal.Zero⟩,
         ⟨3, 2, 10000, some 50000, some 25000, Decimal.Zero, Decimal.Zero⟩,
         ⟨4, 3, 50000, none, none, Decimal.Zero, Decimal.Zero⟩,
         ⟨5, 4, 0, none, none, ⟨0, 0⟩, ⟨0, 0⟩⟩] := by decide
    change ∀ y, y ∈ (CreateUserPayConfig (initUserPayConfigs ⟨0, 1, 2, 3⟩ emptyDB)
        ⟨4, 0, none, none, ⟨0, 0⟩⟩).2.rows ∧ y.covers 0 = true → y = t at huniq
    rw [hrows] at huniq
    have h1 := huniq ⟨1, 0, 0, some 2000, some 1000, Decimal.Zero, Decimal.Zero⟩
      ⟨by simp, by decide⟩
    have h2 := huniq ⟨5, 4, 0, none, none, ⟨0, 0⟩, ⟨0, 0⟩⟩ ⟨by simp, by decide⟩
    exact absurd (h1.trans h2.symm) (by decide)

/-- C5 as amended: in every tier set reached from the seeded defaults by a sequence of
successful `CreateUserPayConfig`, `UpdateUserPayConfig` and `DeleteUserPayConfig` calls,
each tier on its own has `min_score` at least 0 and `max_score`, when present, above
`min_score`. -/
theorem reachable_tiers_rangeValid (lv : PayLevels) (calls : List AdminCall) (db : DB)
    (hrun : runSuccessfulCalls (initUserPayConfigs lv emptyDB) calls = some db) :
    ∀ t ∈ db.rows, 0 ≤ t.MinScore ∧ ∀ m, t.MaxScore = some m → t.MinScore < m :=
  runSuccessfulCalls_rangeValid calls _ db (seeded_rangeValid lv) hrun

/-- Instance of the amended C5: the seeded table after a successful update of row 2 to the
range `[1500, 9000)` and a successful delete of row 3. -/
theorem reachable_tiers_rangeValid_witness :
    runSuccessfulCalls (initUserPayConfigs ⟨0, 1, 2, 3⟩ emptyDB)
        [.update 2 ⟨1500, some 9000, none, ⟨1, -2⟩⟩, .delete 3] =
      some ⟨[⟨1, 0, 0, some 2000, some 1000, Decimal.Zero, Decimal.Zero⟩,
             ⟨2, 1, 1500, some 9000, none, ⟨1, -2⟩, Decimal.Zero⟩,
             ⟨4, 3, 50000, none, none, Decimal.Zero, Decimal.Zero⟩], 5⟩ ∧
    ∀ t ∈ [(⟨1, 0, 0, some 2000, some 1000, Decimal.Zero, Decimal.Zero⟩ : UserPayConfig),
             ⟨2, 1, 1500, some 9000, none, ⟨1, -2⟩, Decimal.Zero⟩,
             ⟨4, 3, 50000, none, none, Decimal.Zero, Decimal.Zero⟩],
      0 ≤ t.MinScore ∧ ∀ m, t.MaxScore = some m → t.MinScore < m :=
  ⟨by decide,
   reachable_tiers_rangeValid ⟨0, 1, 2, 3⟩
     [.update 2 ⟨1500, some 9000, none, ⟨1, -2⟩⟩, .delete 3]
     ⟨[⟨1, 0, 0, some 2000, some 1000, Decimal.Zero, Decimal.Zero⟩,
       ⟨2, 1, 1500, some 9000, none, ⟨1, -2⟩, Decimal.Zero⟩,
       ⟨4, 3, 50000, none, none, Decimal.Zero, Decimal.Zero⟩], 5⟩ (by decide)⟩

theorem CreateUserPayConfig_levelExists_iff (db : DB) (req : CreateUserPayConfigRequest)
    (hb : bindingFailures req.MinScore req.MaxScore = [])
    (hr : 0 ≤ req.FeeRate.toRat ∧ req.FeeRate.toRat ≤ 1) (he : -2 ≤ req.FeeRate.exp) :
    ((CreateUserPayConfig db req).1 = ⟨400, .Err LevelExists⟩ ∧
        (CreateUserPayConfig db req).2 = db) ↔ ∃ r ∈ db.rows, r.Level = req.Level := by
  have hin : ¬ ((req.FeeRate.LessThan Decimal.Zero ||
      req.FeeRate.GreaterThan (Decimal.NewFromInt 1)) = true) := by
    rw [feeRate_out_of_range_iff]
    intro hc
    rcases hc with hc | hc
    · exact absurd hr.1 (not_le.mpr hc)
    · exact absurd hr.2 (not_le.mpr hc)
  rw [CreateUserPayConfig_of_bound db req hb]
  simp only [hin, if_false, Bool.false_eq_true, Decimal.Exponent]
  rw [if_neg (by omega)]
  split
  · rename_i x hx
    have hmem := List.mem_of_find?_eq_some hx
    have hp := List.find?_some hx
    simp only [beq_iff_eq] at hp
    simp only [and_self, true_iff]
    exact ⟨x, hmem, hp⟩
  · rename_i hnone
    constructor
    · intro h
      exact absurd (congrArg Response.status h.1) (by simp)
    · rintro ⟨r, hr, hl⟩
      have := List.find?_eq_none.mp hnone r hr
      simp [hl] at this

/-- C6: for a bound request that passes both fee-rate checks, `CreateUserPayConfig` answers
HTTP 400 with `LevelExists` and leaves the table unchanged exactly when a stored config
already has the requested level; and from a table with pairwise distinct levels, every
sequence of Create, Update and Delete calls leads to a table with pairwise distinct
levels. -/
theorem level_uniqueness (db : DB) (req : CreateUserPayConfigRequest)
    (calls : List AdminCall)
    (hb : bindingFailures req.MinScore req.MaxScore = [])
    (hr : 0 ≤ req.FeeRate.toRat ∧ req.FeeRate.toRat ≤ 1) (he : -2 ≤ req.FeeRate.exp) :
    (((CreateUserPayConfig db req).1 = ⟨400, .Err LevelExists⟩ ∧
        (CreateUserPayConfig db req).2 = db) ↔ ∃ r ∈ db.rows, r.Level = req.Level) ∧
    (LevelsDistinct db → LevelsDistinct (runCalls db calls)) :=
  ⟨CreateUserPayConfig_levelExists_iff db req hb hr he, runCalls_levelsDistinct calls db⟩

/-- Instance of C6 on the seeded table with levels 0 to 3: creating level 1 again is
refused with `LevelExists`, and after creating level 4 twice, updating row 1 and deleting
row 3 the levels are still pairwise distinct. -/
theorem level_uniqueness_witness :
    bindingFailures 0 (some 10) = [] ∧
    (0 ≤ (Decimal.mk 5 (-2)).toRat ∧ (Decimal.mk 5 (-2)).toRat ≤ 1) ∧
    (-2 : Int) ≤ (Decimal.mk 5 (-2)).exp ∧
    LevelsDistinct (initUserPayConfigs ⟨0, 1, 2, 3⟩ emptyDB) ∧
    (CreateUserPayConfig (initUserPayConfigs ⟨0, 1, 2, 3⟩ emptyDB)
        ⟨1, 0, some 10, none, ⟨5, -2⟩⟩).1 = ⟨400, .Err LevelExists⟩ ∧
    LevelsDistinct (runCalls (initUserPayConfigs ⟨0, 1, 2, 3⟩ emptyDB)
      [.create ⟨4, 0, none, none, ⟨0, 0⟩⟩, .create ⟨4, 7, none, none, ⟨0, 0⟩⟩,
       .update 1 ⟨3, none, none, ⟨1, 0⟩⟩, .delete 3]) :=
  have hr : 0 ≤ (Decimal.mk 5 (-2)).toRat ∧ (Decimal.mk 5 (-2)).toRat ≤ 1 := by
    constructor <;> norm_num [Decimal.toRat]
  have hd : LevelsDistinct (initUserPayConfigs ⟨0, 1, 2, 3⟩ emptyDB) := by
    unfold LevelsDistinct; decide
  have h := level_uniqueness (initUserPayConfigs ⟨0, 1, 2, 3⟩ emptyDB)
    ⟨1, 0, some 10, none, ⟨5, -2⟩⟩
    [.create ⟨4, 0, none, none, ⟨0, 0⟩⟩, .create ⟨4, 7, none, none, ⟨0, 0⟩⟩,
     .update 1 ⟨3, none, none, ⟨1, 0⟩⟩, .delete 3] (by decide) hr (by decide)
  ⟨by decide, hr, by decide, hd,
   (h.1.mpr ⟨⟨2, 1, 2000, some 10000, some 6000, Decimal.Zero, Decimal.Zero⟩,
      by decide, rfl⟩).1, h.2 hd⟩

/-! ## Seeding of the system configuration -/

/-- C7: on an empty `system_config` table `initSystemConfigs` creates exactly three
entries, in this order: merchant-order expiry minutes with value "5", website-order expiry
minutes with value "10", dispute time-window hours with value "168". -/
theorem initSystemConfigs_empty (k : ConfigKeys) :
    (initSystemConfigs k []).length = 3 ∧
    (initSystemConfigs k []).map (fun c => (c.Key, c.Value)) =
      [(k.ConfigKeyMerchantOrderExpireMinutes, "5"),
       (k.ConfigKeyWebsiteOrderExpireMinutes, "10"),
       (k.ConfigKeyDisputeTimeWindowHours, "168")] :=
  ⟨rfl, rfl⟩

/-! ## The dispute table under its schema -/

/-- Keys and order ids are pairwise different and every key is below the next one. -/
theorem DisputeTable.Create_inv (t : DisputeTable) (d : Dispute) (r : Dispute × DisputeTable)
    (hp : t.rows.Pairwise (fun a b => a.ID ≠ b.ID ∧ a.OrderID ≠ b.OrderID))
    (hlt : ∀ x ∈ t.rows, x.ID < t.nextID) (hc : t.Create d = some r) :
    r.2.rows.Pairwise (fun a b => a.ID ≠ b.ID ∧ a.OrderID ≠ b.OrderID) ∧
      ∀ x ∈ r.2.rows, x.ID < r.2.nextID := by
  unfold DisputeTable.Create at hc
  by_cases hu : uniqueOrderID t.rows (d.asStored t.nextID) = true
  · simp only [hu, if_true, Option.some.injEq] at hc
    subst hc
    simp only [uniqueOrderID, List.all_eq_true, Bool.not_eq_true', beq_eq_false_iff_ne,
      ne_eq] at hu
    constructor
    · rw [List.pairwise_append]
      refine ⟨hp, List.pairwise_singleton _ _, ?_⟩
      intro a ha b hb
      rw [List.mem_singleton] at hb
      subst hb
      exact ⟨Nat.ne_of_lt (hlt a ha), hu a ha⟩
    · intro x hx
      rcases List.mem_append.mp hx with hx | hx
      · exact Nat.lt_succ_of_lt (hlt x hx)
      · rw [List.mem_singleton] at hx
        subst hx
        exact Nat.lt_succ_self _
  · simp [hu] at hc

theorem DisputeTable.Update_inv (t t' : DisputeTable) (id : Nat) (f : Dispute → Dispute)
    (hp : t.rows.Pairwise (fun a b => a.ID ≠ b.ID ∧ a.OrderID ≠ b.OrderID))
    (hlt : ∀ x ∈ t.rows, x.ID < t.nextID) (hc : t.Update id f = some t') :
    t'.rows.Pairwise (fun a b => a.ID ≠ b.ID ∧ a.OrderID ≠ b.OrderID) ∧
      ∀ x ∈ t'.rows, x.ID < t'.nextID := by
  unfold DisputeTable.Update at hc
  split at hc
  · simp only [Option.some.injEq] at hc
    subst hc
    exact ⟨hp, hlt⟩
  · rename_i old hfind
    simp only at hc
    split at hc
    · rename_i hu
      simp only [Option.some.injEq] at hc
      subst hc
      have hold : old.ID = id := by
        have := List.find?_some hfind
        simpa using this
      simp only [uniqueOrderID, List.all_eq_true, Bool.not_eq_true', beq_eq_false_iff_ne,
        ne_eq, List.mem_filter, Bool.not_eq_true', and_imp] at hu
      constructor
      · show List.Pairwise _ (t.rows.map _)
        rw [List.pairwise_map]
        refine List.Pairwise.imp_of_mem ?_ hp
        intro a b ha hb hab
        by_cases h1 : a.ID = id
        · by_cases h2 : b.ID = id
          · exact absurd (h1.trans h2.symm) hab.1
          · have hb' := hu b hb h2
            simp only [h1, h2, beq_self_eq_true, if_true, beq_iff_eq, if_false]
            exact ⟨fun e => h2 (e.symm.trans hold), fun e => hb' e.symm⟩
        · by_cases h2 : b.ID = id
          · have ha' := hu a ha h1
            simp only [h1, h2, beq_self_eq_true, if_true, beq_iff_eq, if_false]
            exact ⟨fun e => h1 (e.trans hold), ha'⟩
          · simp only [h1, h2, beq_iff_eq, if_false]
            exact hab
      · intro x hx
        show x.ID < t.nextID
        change x ∈ t.rows.map _ at hx
        obtain ⟨y, hy, hyx⟩ := List.mem_map.mp hx
        by_cases h1 : y.ID = id
        · simp only [h1, beq_self_eq_true, if_true] at hyx
          subst hyx
          exact hlt old (List.mem_of_find?_eq_some hfind)
        · simp only [h1, beq_iff_eq, if_false] at hyx
          subst hyx
          exact hlt y hy
    · exact absurd hc (by simp)

theorem DisputeWrite.run_inv (t : DisputeTable) (w : DisputeWrite)
    (hp : t.rows.Pairwise (fun a b => a.ID ≠ b.ID ∧ a.OrderID ≠ b.OrderID))
    (hlt : ∀ x ∈ t.rows, x.ID < t.nextID) :
    (w.run t).rows.Pairwise (fun a b => a.ID ≠ b.ID ∧ a.OrderID ≠ b.OrderID) ∧
      ∀ x ∈ (w.run t).rows, x.ID < (w.run t).nextID := by
  cases w with
  | create d =>
    simp only [DisputeWrite.run]
    split
    · rename_i r hr
      exact DisputeTable.Create_inv t d r hp hlt hr
    · exact ⟨hp, hlt⟩
  | update id f =>
    simp only [DisputeWrite.run]
    split
    · rename_i t' hr
      exact DisputeTable.Update_inv t t' id f hp hlt hr
    · exact ⟨hp, hlt⟩
  | delete id =>
    simp only [DisputeWrite.run, DisputeTable.Delete]
    exact ⟨List.Pairwise.sublist (List.filter_sublist _) hp,
      fun x hx => hlt x (List.mem_filter.mp hx).1⟩

theorem runDisputeWrites_inv (ws : List DisputeWrite) :
    ∀ t : DisputeTable,
      t.rows.Pairwise (fun a b => a.ID ≠ b.ID ∧ a.OrderID ≠ b.OrderID) →
      (∀ x ∈ t.rows, x.ID < t.nextID) →
      (runDisputeWrites t ws).rows.Pairwise (fun a b => a.ID ≠ b.ID ∧ a.OrderID ≠ b.OrderID) := by
  induction ws with
  | nil => intro t hp _; exact hp
  | cons w ws ih =>
    intro t hp hlt
    obtain ⟨h1, h2⟩ := DisputeWrite.run_inv t w hp hlt
    exact ih _ h1 h2

/-- C8: in every `disputes` table reached from the empty one by inserts, row updates and
deletes under the schema of `Dispute`, no two rows have the same `order_id`; a dispute
inserted with its status left unset is stored with status `disputing`; and the model
declares exactly three statuses, `disputing`, `refund` and `closed`, pairwise different. -/
theorem dispute_unique_per_order (ws : List DisputeWrite) (t : DisputeTable) (d : Dispute)
    (r : Dispute × DisputeTable) :
    ((runDisputeWrites emptyDisputeTable ws).rows.map (fun x => x.OrderID)).Nodup ∧
    (d.Status = "" → t.Create d = some r → r.1.Status = DisputeStatusDisputing) ∧
    disputeStatuses = ["disputing", "refund", "closed"] ∧ disputeStatuses.Nodup := by
  refine ⟨?_, ?_, rfl, by decide⟩
  · have h := runDisputeWrites_inv ws emptyDisputeTable List.Pairwise.nil
      (fun x hx => absurd hx (List.not_mem_nil x))
    unfold List.Nodup
    rw [List.pairwise_map]
    exact List.Pairwise.imp (fun hab => hab.2) h
  · intro hs hc
    unfold DisputeTable.Create at hc
    by_cases hu : uniqueOrderID t.rows (d.asStored t.nextID) = true
    · simp only [hu, if_true, Option.some.injEq] at hc
      subst hc
      simp [Dispute.asStored, hs]
    · simp [hu] at hc

/-- Instance of C8: a dispute for order 7 is inserted without status and stored as
`disputing`; a second insert for order 7 is refused, and after further writes the stored
order ids are pairwise different. -/
theorem dispute_unique_per_order_witness :
    emptyDisputeTable.Create ⟨0, 7, 3, "late", "", none⟩ =
      some (⟨1, 7, 3, "late", "disputing", none⟩,
        ⟨[⟨1, 7, 3, "late", "disputing", none⟩], 2⟩) ∧
    (⟨1, 7, 3, "late", "disputing", none⟩ : Dispute).Status = DisputeStatusDisputing ∧
    ((runDisputeWrites emptyDisputeTable
        [.create ⟨0, 7, 3, "late", "", none⟩, .create ⟨0, 7, 4, "again", "", none⟩,
         .create ⟨0, 8, 4, "other", "", none⟩,
         .update 2 (fun x => { x with OrderID := 7 })]).rows.map
      (fun x => x.OrderID)).Nodup :=
  have h := dispute_unique_per_order
    [.create ⟨0, 7, 3, "late", "", none⟩, .create ⟨0, 7, 4, "again", "", none⟩,
     .create ⟨0, 8, 4, "other", "", none⟩, .update 2 (fun x => { x with OrderID := 7 })]
    emptyDisputeTable ⟨0, 7, 3, "late", "", none⟩
    (⟨1, 7, 3, "late", "disputing", none⟩, ⟨[⟨1, 7, 3, "late", "disputing", none⟩], 2⟩)
  ⟨by decide, h.2.1 rfl (by decide), h.1⟩

/-! ## Settlement -/

theorem round2_of_nonneg (q : ℚ) (h : 0 ≤ q) :
    round2 q = ((⌊q * 100 + 1 / 2⌋ : ℤ) : ℚ) / 100 := by
  unfold round2
  rw [if_pos h]

theorem round2_neg (q : ℚ) : round2 (-q) = -round2 q := by
  unfold round2
  rcases lt_trichotomy q 0 with h | h | h
  · rw [if_pos (by linarith), if_neg (by linarith)]
    simp
  · subst h
    have hfl : ⌊(2 : ℚ)⁻¹⌋ = 0 := by
      rw [Int.floor_eq_iff]
      constructor <;> norm_num
    simp [hfl]
  · rw [if_neg (by linarith), if_pos (by linarith)]
    simp

theorem round2_bounds (amount feeRate : ℚ) (hpos : 0 < amount)
    (h2 : ∃ k : ℤ, amount * 100 = (k : ℚ)) (hr : 0 ≤ feeRate ∧ feeRate ≤ 1) :
    0 ≤ round2 (amount * feeRate) ∧ round2 (amount * feeRate) ≤ amount := by
  have hx : 0 ≤ amount * feeRate := mul_nonneg (le_of_lt hpos) hr.1
  rw [round2_of_nonneg _ hx]
  obtain ⟨k, hk⟩ := h2
  constructor
  · apply div_nonneg _ (by norm_num)
    have : (0 : ℤ) ≤ ⌊amount * feeRate * 100 + 1 / 2⌋ :=
      Int.floor_nonneg.mpr (by positivity)
    exact_mod_cast this
  · rw [div_le_iff₀ (by norm_num : (0 : ℚ) < 100), hk]
    have hle : amount * feeRate * 100 + 1 / 2 < (k : ℚ) + 1 := by
      have : amount * feeRate ≤ amount := by
        calc amount * feeRate ≤ amount * 1 := mul_le_mul_of_nonneg_left hr.2 (le_of_lt hpos)
          _ = amount := mul_one _
      rw [← hk]
      linarith
    have : ⌊amount * feeRate * 100 + 1 / 2⌋ < k + 1 := Int.floor_lt.mpr (by exact_mod_cast hle)
    exact_mod_cast Int.lt_add_one_iff.mp this

/-- C9: for every amount above 0 with at most 2 fractional digits, every fee rate in [0,1]
and distinct payer and payee, `settle` fails with `InsufficientBalance` (producing no new
balances) when the payer balance is below the amount; otherwise it succeeds, the payer
balance drops by exactly the amount, the payee balance rises by exactly
`amount - fee` with `fee = round2 (amount * fee_rate)`, and no other balance changes.
The fee is a whole number of hundredths, the nearest to `amount * fee_rate` with a half
rounded away from zero, and lies between 0 and the amount. -/
theorem settle_debit_credit_identity (balance : Nat → ℚ) (payer payee : Nat)
    (amount feeRate : ℚ) (hpos : 0 < amount) (h2 : ∃ k : ℤ, amount * 100 = (k : ℚ))
    (hr : 0 ≤ feeRate ∧ feeRate ≤ 1) (hne : payer ≠ payee) :
    (balance payer < amount →
        settle balance payer payee amount feeRate = .error InsufficientBalance) ∧
    (amount ≤ balance payer →
        ∃ balance', settle balance payer payee amount feeRate =
            .ok (amount - round2 (amount * feeRate), balance') ∧
          balance' payer = balance payer - amount ∧
          balance' payee = balance payee + (amount - round2 (amount * feeRate)) ∧
          ∀ a, a ≠ payer → a ≠ payee → balance' a = balance a) ∧
    (∃ k : ℤ, round2 (amount * feeRate) * 100 = (k : ℚ) ∧
        (k : ℚ) ≤ amount * feeRate * 100 + 1 / 2 ∧ amount * feeRate * 100 + 1 / 2 < k + 1) ∧
    (∀ q : ℚ, round2 (-q) = -round2 q) ∧
    (0 ≤ round2 (amount * feeRate) ∧ round2 (amount * feeRate) ≤ amount) := by
  refine ⟨?_, ?_, ?_, round2_neg, round2_bounds amount feeRate hpos h2 hr⟩
  · intro h
    unfold settle
    rw [if_pos h]
  · intro h
    unfold settle
    rw [if_neg (not_lt.mpr h)]
    refine ⟨_, rfl, ?_, ?_, ?_⟩
    · simp [Function.update, hne]
    · simp [Function.update, hne, Ne.symm hne]
    · intro a ha hb
      simp [Function.update, ha, hb]
  · have hx : 0 ≤ amount * feeRate := mul_nonneg (le_of_lt hpos) hr.1
    refine ⟨⌊amount * feeRate * 100 + 1 / 2⌋, ?_, Int.floor_le _, Int.lt_floor_add_one _⟩
    rw [round2_of_nonneg _ hx]
    field_simp

/-- Instance of C9 with the figures of the refund example: amount 100.00 at fee rate 0.02,
payer 1 holding 250, payee 2 holding 0; the payer ends at 150 and the payee at 98. -/
theorem settle_debit_credit_identity_witness :
    (0 : ℚ) < 100 ∧ (∃ k : ℤ, (100 : ℚ) * 100 = (k : ℚ)) ∧
    ((0 : ℚ) ≤ 1 / 50 ∧ (1 / 50 : ℚ) ≤ 1) ∧ (1 : Nat) ≠ 2 ∧
    round2 (100 * (1 / 50)) = 2 ∧
    ∃ balance', settle (fun a => if a = 1 then 250 else 0) 1 2 100 (1 / 50) =
        .ok (100 - round2 (100 * (1 / 50)), balance') ∧
      balance' 1 = (if (1 : Nat) = 1 then (250 : ℚ) else 0) - 100 ∧
      balance' 2 = (if (2 : Nat) = 1 then (250 : ℚ) else 0) + (100 - round2 (100 * (1 / 50))) ∧
      ∀ a, a ≠ 1 → a ≠ 2 → balance' a = (if a = 1 then (250 : ℚ) else 0) :=
  have hk : ∃ k : ℤ, (100 : ℚ) * 100 = (k : ℚ) := ⟨10000, by norm_num⟩
  have hround : round2 (100 * (1 / 50)) = 2 := by
    rw [round2_of_nonneg _ (by norm_num)]
    have : ⌊(100 : ℚ) * (1 / 50) * 100 + 1 / 2⌋ = 200 := by
      rw [Int.floor_eq_iff]
      constructor <;> norm_num
    rw [this]
    norm_num
  ⟨by norm_num, hk, by norm_num, by decide, hround,
   (settle_debit_credit_identity (fun a => if a = 1 then 250 else 0) 1 2 100 (1 / 50)
      (by norm_num) hk (by norm_num) (by decide)).2.1 (by norm_num)⟩

/-! ## Base64 and the Basic credentials -/

theorem decodeMap_encodeChar : ∀ i, i < 64 → decodeMap (encodeChar i) = i := by decide

theorem decodeMap_pad : decodeMap 61 = 255 := by decide

theorem decodeLoop_sextet (i : Nat) (hi : i < 64) (rest : Bytes) (dbuf : List Nat)
    (hlen : dbuf.length ≠ 3) :
    decodeLoop (encodeChar i :: rest) dbuf = decodeLoop rest (dbuf ++ [i]) := by
  rw [decodeLoop]
  simp only [decodeMap_encodeChar i hi]
  rw [if_pos (by omega), if_neg hlen]

theorem decodeLoop_sextet_last (i : Nat) (hi : i < 64) (rest : Bytes) (dbuf : List Nat)
    (hlen : dbuf.length = 3) :
    decodeLoop (encodeChar i :: rest) dbuf =
      (decodeLoop rest []).map (fun tail => quantumBytes (dbuf ++ [i]) 4 ++ tail) := by
  rw [decodeLoop]
  simp only [decodeMap_encodeChar i hi]
  rw [if_pos (by omega), if_pos hlen]

theorem decodeLoop_quantum (s0 s1 s2 s3 : Nat) (h0 : s0 < 64) (h1 : s1 < 64) (h2 : s2 < 64)
    (h3 : s3 < 64) (rest : Bytes) :
    decodeLoop (encodeChar s0 :: encodeChar s1 :: encodeChar s2 :: encodeChar s3 :: rest) [] =
      (decodeLoop rest []).map (fun tail => quantumBytes [s0, s1, s2, s3] 4 ++ tail) := by
  rw [decodeLoop_sextet s0 h0 _ _ (by simp), decodeLoop_sextet s1 h1 _ _ (by simp),
    decodeLoop_sextet s2 h2 _ _ (by simp), decodeLoop_sextet_last s3 h3 _ _ (by simp)]
  rfl

theorem decodeLoop_pad1 (s0 s1 s2 : Nat) (h0 : s0 < 64) (h1 : s1 < 64) (h2 : s2 < 64) :
    decodeLoop [encodeChar s0, encodeChar s1, encodeChar s2, 61] [] =
      some (quantumBytes [s0, s1, s2] 3) := by
  rw [decodeLoop_sextet s0 h0 _ _ (by simp), decodeLoop_sextet s1 h1 _ _ (by simp),
    decodeLoop_sextet s2 h2 _ _ (by simp)]
  rw [decodeLoop]
  simp [decodeMap_pad, skipNewlines]

theorem decodeLoop_pad2 (s0 s1 : Nat) (h0 : s0 < 64) (h1 : s1 < 64) :
    decodeLoop [encodeChar s0, encodeChar s1, 61, 61] [] = some (quantumBytes [s0, s1] 2) := by
  rw [decodeLoop_sextet s0 h0 _ _ (by simp), decodeLoop_sextet s1 h1 _ _ (by simp)]
  rw [decodeLoop]
  simp [decodeMap_pad, skipNewlines]

theorem EncodeToString_one (b0 : Nat) :
    EncodeToString [b0] =
      [encodeChar (b0 * 65536 / 262144 % 64), encodeChar (b0 * 65536 / 4096 % 64), 61, 61] := by
  rw [EncodeToString]

theorem EncodeToString_two (b0 b1 : Nat) :
    EncodeToString [b0, b1] =
      [encodeChar ((b0 * 65536 + b1 * 256) / 262144 % 64),
       encodeChar ((b0 * 65536 + b1 * 256) / 4096 % 64),
       encodeChar ((b0 * 65536 + b1 * 256) / 64 % 64), 61] := by
  rw [EncodeToString]

theorem EncodeToString_three (b0 b1 b2 : Nat) (rest : Bytes) :
    EncodeToString (b0 :: b1 :: b2 :: rest) =
      encodeChar ((b0 * 65536 + b1 * 256 + b2) / 262144 % 64) ::
      encodeChar ((b0 * 65536 + b1 * 256 + b2) / 4096 % 64) ::
      encodeChar ((b0 * 65536 + b1 * 256 + b2) / 64 % 64) ::
      encodeChar ((b0 * 65536 + b1 * 256 + b2) % 64) :: EncodeToString rest := by
  rw [EncodeToString]

/-- Decoding undoes encoding, for every byte string. -/
theorem DecodeString_EncodeToString :
    ∀ bs : Bytes, (∀ b ∈ bs, b < 256) → DecodeString (EncodeToString bs) = some bs
  | [], _ => rfl
  | [b0], h => by
    have hb0 : b0 < 256 := h b0 (by simp)
    rw [DecodeString, EncodeToString_one,
      decodeLoop_pad2 _ _ (Nat.mod_lt _ (by norm_num)) (Nat.mod_lt _ (by norm_num))]
    simp only [quantumBytes, List.getD_cons_zero, List.getD_cons_succ, List.getD_nil,
      List.take, Option.some.injEq, List.cons.injEq, and_true]
    omega
  | [b0, b1], h => by
    have hb0 : b0 < 256 := h b0 (by simp)
    have hb1 : b1 < 256 := h b1 (by simp)
    rw [DecodeString, EncodeToString_two,
      decodeLoop_pad1 _ _ _ (Nat.mod_lt _ (by norm_num)) (Nat.mod_lt _ (by norm_num))
        (Nat.mod_lt _ (by norm_num))]
    simp only [quantumBytes, List.getD_cons_zero, List.getD_cons_succ, List.getD_nil,
      List.take, Option.some.injEq, List.cons.injEq, and_true]
    omega
  | b0 :: b1 :: b2 :: rest, h => by
    have hb0 : b0 < 256 := h b0 (by simp)
    have hb1 : b1 < 256 := h b1 (by simp)
    have hb2 : b2 < 256 := h b2 (by simp)
    have ih := DecodeString_EncodeToString rest (fun b hb => h b (by simp [hb]))
    rw [DecodeString] at ih ⊢
    rw [EncodeToString_three,
      decodeLoop_quantum _ _ _ _ (Nat.mod_lt _ (by norm_num)) (Nat.mod_lt _ (by norm_num))
        (Nat.mod_lt _ (by norm_num)) (Nat.mod_lt _ (by norm_num)), ih]
    simp only [quantumBytes, List.getD_cons_zero, List.getD_cons_succ, List.getD_nil,
      List.take, Option.map_some', Option.some.injEq, List.cons_append, List.nil_append,
      List.cons.injEq, and_true]
    omega

theorem cut_append_sep (sep : Nat) (a b : Bytes) (h : sep ∉ a) :
    cut sep (a ++ sep :: b) = some (a, b) := by
  induction a with
  | nil => simp [cut]
  | cons c a ih =>
    have hc : c ≠ sep := fun e => h (by simp [e])
    have ha : sep ∉ a := fun e => h (List.mem_cons_of_mem _ e)
    simp [cut, hc, ih ha]

theorem SplitN_two_append_sep (sep : Nat) (a b : Bytes) (h : sep ∉ a) :
    SplitN (a ++ sep :: b) sep 2 = [a, b] := by
  simp [SplitN, cut_append_sep sep a b h]

theorem parseCredentials_basic (clientID clientSecret : Bytes)
    (hid : ∀ b ∈ clientID, b < 256) (hsec : ∀ b ∈ clientSecret, b < 256)
    (hcolon : 58 ∉ clientID) :
    parseCredentials
        (str "Basic " ++ EncodeToString (clientID ++ str ":" ++ clientSecret)) =
      .ok (clientID, clientSecret) := by
  have hB : str "Basic " = str "Basic" ++ [32] := by decide
  have hC : str ":" = [58] := by decide
  have hsp : (32 : Nat) ∉ str "Basic" := by decide
  have hbytes : ∀ b ∈ clientID ++ 58 :: clientSecret, b < 256 := by
    intro b hb
    rcases List.mem_append.mp hb with hb | hb
    · exact hid b hb
    · rcases List.mem_cons.mp hb with hb | hb
      · omega
      · exact hsec b hb
  have hne : str "Basic" ++ 32 :: EncodeToString (clientID ++ 58 :: clientSecret) ≠ [] := by
    rw [show str "Basic" = [66, 97, 115, 105, 99] by decide]
    simp
  rw [hB, hC, List.append_assoc, List.append_assoc, List.singleton_append,
    List.singleton_append]
  unfold parseCredentials
  rw [if_neg hne, SplitN_two_append_sep 32 _ _ hsp]
  simp only [ne_eq, not_true_eq_false, if_false]
  rw [DecodeString_EncodeToString _ hbytes]
  simp only
  rw [SplitN_two_append_sep 58 _ _ hcolon]

/-- C10: for every client id without `:` and every client secret (which may contain `:`),
the header `"Basic " + base64(clientID + ":" + clientSecret)` is parsed by
`RequireMerchantAuth` to exactly the pair `(clientID, clientSecret)`, and the key lookup is
made with that pair: the request goes on with the first stored key matching both, and is
aborted with 401 when there is none. -/
theorem basicAuth_left_inverse (keys : List MerchantAPIKey) (clientID clientSecret : Bytes)
    (hid : ∀ b ∈ clientID, b < 256) (hsec : ∀ b ∈ clientSecret, b < 256)
    (hcolon : 58 ∉ clientID) :
    parseCredentials
        (str "Basic " ++ EncodeToString (clientID ++ str ":" ++ clientSecret)) =
      .ok (clientID, clientSecret) ∧
    RequireMerchantAuth keys
        (str "Basic " ++ EncodeToString (clientID ++ str ":" ++ clientSecret)) =
      (match keys.find? (fun k => k.ClientSecret == clientSecret && k.ClientID == clientID) with
       | none => .Abort 401 "认证失败"
       | some apiKey => .Next apiKey) := by
  have h := parseCredentials_basic clientID clientSecret hid hsec hcolon
  refine ⟨h, ?_⟩
  unfold RequireMerchantAuth
  rw [h]

/-- Instance of C10: client id `ab` and client secret `c:d` travel as `Basic YWI6Yzpk`; the
header is parsed back to the pair, and the stored key with that pair is selected. -/
theorem basicAuth_left_inverse_witness :
    (∀ b ∈ str "ab", b < 256) ∧ (∀ b ∈ str "c:d", b < 256) ∧ 58 ∉ str "ab" ∧
    str "Basic " ++ EncodeToString (str "ab" ++ str ":" ++ str "c:d") = str "Basic YWI6Yzpk" ∧
    parseCredentials (str "Basic " ++ EncodeToString (str "ab" ++ str ":" ++ str "c:d")) =
      .ok (str "ab", str "c:d") ∧
    RequireMerchantAuth [⟨1, str "zz", str "c:d"⟩, ⟨2, str "ab", str "c:d"⟩]
        (str "Basic " ++ EncodeToString (str "ab" ++ str ":" ++ str "c:d")) =
      .Next ⟨2, str "ab", str "c:d"⟩ :=
  have h := basicAuth_left_inverse [⟨1, str "zz", str "c:d"⟩, ⟨2, str "ab", str "c:d"⟩]
    (str "ab") (str "c:d") (by decide) (by decide) (by decide)
  ⟨by decide, by decide, by decide, by decide, h.1, h.2.trans (by decide)⟩

/-! ## The merchant authentication middleware -/

theorem cut_eq_some_iff (sep : Nat) :
    ∀ s a b : Bytes, cut sep s = some (a, b) ↔ s = a ++ sep :: b ∧ sep ∉ a := by
  intro s
  induction s with
  | nil =>
    intro a b
    simp [cut]
  | cons c rest ih =>
    intro a b
    by_cases hc : c = sep
    · subst hc
      simp only [cut, if_true, Option.some.injEq, Prod.mk.injEq]
      constructor
      · rintro ⟨rfl, rfl⟩
        simp
      · rintro ⟨hs, hn⟩
        cases a with
        | nil =>
          simp only [List.nil_append, List.cons.injEq, true_and] at hs
          exact ⟨rfl, hs⟩
        | cons x a' =>
          simp only [List.cons_append, List.cons.injEq] at hs
          exact absurd (by simp [hs.1]) hn
    · simp only [cut, hc, if_false, Option.map_eq_some', Prod.mk.injEq]
      constructor
      · rintro ⟨⟨p1, p2⟩, hp, rfl, rfl⟩
        obtain ⟨hs, hn⟩ := (ih p1 p2).mp hp
        refine ⟨by simp [hs], ?_⟩
        intro hmem
        rcases List.mem_cons.mp hmem with h | h
        · exact hc h.symm
        · exact hn h
      · rintro ⟨hs, hn⟩
        cases a with
        | nil =>
          simp only [List.nil_append, List.cons.injEq] at hs
          exact absurd hs.1 hc
        | cons x a' =>
          simp only [List.cons_append, List.cons.injEq] at hs
          obtain ⟨rfl, hrest⟩ := hs
          exact ⟨(a', b), (ih a' b).mpr ⟨hrest, fun h => hn (List.mem_cons_of_mem _ h)⟩,
            rfl, rfl⟩

theorem SplitN_two (s : Bytes) (sep : Nat) :
    SplitN s sep 2 = match cut sep s with
      | none => [s]
      | some (a, b) => [a, b] := by
  rw [SplitN]
  cases cut sep s with
  | none => rfl
  | some p => rfl

theorem parseCredentials_ok_iff_cut (authHeader clientID clientSecret : Bytes) :
    parseCredentials authHeader = .ok (clientID, clientSecret) ↔
      ∃ p1 decoded, cut 32 authHeader = some (str "Basic", p1) ∧
        DecodeString p1 = some decoded ∧ cut 58 decoded = some (clientID, clientSecret) := by
  unfold parseCredentials
  by_cases hnil : authHeader = []
  · subst hnil
    simp [cut]
  · rw [if_neg hnil, SplitN_two]
    cases h1 : cut 32 authHeader with
    | none => simp
    | some p =>
      obtain ⟨p0, p1⟩ := p
      simp only
      by_cases hb : p0 = str "Basic"
      · subst hb
        simp only [ne_eq, not_true_eq_false, if_false, Option.some.injEq, Prod.mk.injEq,
          true_and, exists_eq_left']
        cases h2 : DecodeString p1 with
        | none => simp [h2]
        | some decoded =>
          simp only [Option.some.injEq, exists_eq_left', SplitN_two]
          cases h3 : cut 58 decoded with
          | none => simp [h2, h3]
          | some q =>
            obtain ⟨a, b⟩ := q
            simp [h2, h3]
      · simp [hb]

theorem parseCredentials_ok_iff (authHeader clientID clientSecret : Bytes) :
    parseCredentials authHeader = .ok (clientID, clientSecret) ↔
      ∃ b64, authHeader = str "Basic " ++ b64 ∧
        DecodeString b64 = some (clientID ++ str ":" ++ clientSecret) ∧ 58 ∉ clientID := by
  have hB : ∀ b64 : Bytes, str "Basic " ++ b64 = str "Basic" ++ 32 :: b64 := by
    intro b64
    rw [show str "Basic " = str "Basic" ++ [32] by decide]
    simp
  have hC : ∀ a b : Bytes, a ++ str ":" ++ b = a ++ 58 :: b := by
    intro a b
    rw [show str ":" = [58] by decide]
    simp
  have hsp : (32 : Nat) ∉ str "Basic" := by decide
  rw [parseCredentials_ok_iff_cut]
  constructor
  · rintro ⟨p1, decoded, h1, h2, h3⟩
    obtain ⟨e1, _⟩ := (cut_eq_some_iff 32 _ _ _).mp h1
    obtain ⟨e3, hn⟩ := (cut_eq_some_iff 58 _ _ _).mp h3
    exact ⟨p1, by rw [hB]; exact e1, by rw [hC, ← e3]; exact h2, hn⟩
  · rintro ⟨b64, e1, h2, hn⟩
    rw [hB] at e1
    rw [hC] at h2
    exact ⟨b64, _, (cut_eq_some_iff 32 _ _ _).mpr ⟨e1, hsp⟩, h2,
      (cut_eq_some_iff 58 _ _ _).mpr ⟨rfl, hn⟩⟩

theorem RequireMerchantAuth_next_iff (keys : List MerchantAPIKey) (authHeader : Bytes)
    (apiKey : MerchantAPIKey) :
    RequireMerchantAuth keys authHeader = .Next apiKey ↔
      ∃ clientID clientSecret, parseCredentials authHeader = .ok (clientID, clientSecret) ∧
        keys.find? (fun k => k.ClientSecret == clientSecret && k.ClientID == clientID) =
          some apiKey := by
  unfold RequireMerchantAuth
  cases hp : parseCredentials authHeader with
  | error msg => simp
  | ok pair =>
    obtain ⟨clientID, clientSecret⟩ := pair
    simp only [Except.ok.injEq, Prod.mk.injEq]
    cases hf : keys.find? (fun k => k.ClientSecret == clientSecret && k.ClientID == clientID) with
    | none =>
      simp only [false_iff, not_exists, not_and, reduceCtorEq]
      rintro a b ⟨rfl, rfl⟩ h
      rw [hf] at h
      exact absurd h (by simp)
    | some k =>
      simp only [AuthOutcome.Next.injEq]
      constructor
      · rintro rfl
        exact ⟨clientID, clientSecret, ⟨rfl, rfl⟩, hf⟩
      · rintro ⟨a, b, ⟨rfl, rfl⟩, h⟩
        rw [hf] at h
        exact Option.some.inj h

theorem RequireMerchantAuth_next_or_abort (keys : List MerchantAPIKey) (authHeader : Bytes) :
    (∃ apiKey, RequireMerchantAuth keys authHeader = .Next apiKey) ∨
      ∃ msg, RequireMerchantAuth keys authHeader = .Abort 401 msg := by
  unfold RequireMerchantAuth
  cases parseCredentials authHeader with
  | error msg => exact Or.inr ⟨msg, rfl⟩
  | ok pair =>
    obtain ⟨clientID, clientSecret⟩ := pair
    simp only
    cases keys.find? (fun k => k.ClientSecret == clientSecret && k.ClientID == clientID) with
    | none => exact Or.inr ⟨_, rfl⟩
    | some k => exact Or.inl ⟨k, rfl⟩

/-- The decoder of `base64.StdEncoding` is not strict: it also accepts a final quantum
whose unused low bits are set.  `YTpiYw==` is the encoding of `a:bc`, and `YTpiYx==`
decodes to `a:bc` as well. -/
theorem DecodeString_unused_bits :
    EncodeToString (str "a:bc") = str "YTpiYw==" ∧
    DecodeString (str "YTpiYw==") = some (str "a:bc") ∧
    DecodeString (str "YTpiYx==") = some (str "a:bc") := by decide

/-- C11: `RequireMerchantAuth` runs the next handler, with the API key stored in the
context, exactly when the `Authorization` header is `"Basic "` followed by a payload that
`base64.StdEncoding` decodes to `clientID:clientSecret` (split at the first `:`) and a
stored key has that client id and that client secret; the key passed on is a stored key
with those two values.  In every other case (missing header, other scheme, undecodable
payload, no `:`, no matching key) the request is aborted with HTTP 401. -/
theorem requireMerchantAuth_passes_iff (keys : List MerchantAPIKey) (authHeader : Bytes) :
    (∀ apiKey, RequireMerchantAuth keys authHeader = .Next apiKey ↔
      ∃ b64 clientID clientSecret, authHeader = str "Basic " ++ b64 ∧
        DecodeString b64 = some (clientID ++ str ":" ++ clientSecret) ∧ 58 ∉ clientID ∧
        keys.find? (fun k => k.ClientSecret == clientSecret && k.ClientID == clientID) =
          some apiKey) ∧
    ((∃ apiKey, RequireMerchantAuth keys authHeader = .Next apiKey) ↔
      ∃ b64 clientID clientSecret, authHeader = str "Basic " ++ b64 ∧
        DecodeString b64 = some (clientID ++ str ":" ++ clientSecret) ∧ 58 ∉ clientID ∧
        ∃ key ∈ keys, key.ClientID = clientID ∧ key.ClientSecret = clientSecret) ∧
    ((¬ ∃ apiKey, RequireMerchantAuth keys authHeader = .Next apiKey) →
      ∃ msg, RequireMerchantAuth keys authHeader = .Abort 401 msg) ∧
    (∀ apiKey, RequireMerchantAuth keys authHeader = .Next apiKey → apiKey ∈ keys) := by
  have key1 : ∀ apiKey, RequireMerchantAuth keys authHeader = .Next apiKey ↔
      ∃ b64 clientID clientSecret, authHeader = str "Basic " ++ b64 ∧
        DecodeString b64 = some (clientID ++ str ":" ++ clientSecret) ∧ 58 ∉ clientID ∧
        keys.find? (fun k => k.ClientSecret == clientSecret && k.ClientID == clientID) =
          some apiKey := by
    intro apiKey
    rw [RequireMerchantAuth_next_iff]
    constructor
    · rintro ⟨clientID, clientSecret, hp, hf⟩
      obtain ⟨b64, h1, h2, h3⟩ := (parseCredentials_ok_iff _ _ _).mp hp
      exact ⟨b64, clientID, clientSecret, h1, h2, h3, hf⟩
    · rintro ⟨b64, clientID, clientSecret, h1, h2, h3, hf⟩
      exact ⟨clientID, clientSecret, (parseCredentials_ok_iff _ _ _).mpr ⟨b64, h1, h2, h3⟩, hf⟩
  refine ⟨key1, ?_, ?_, ?_⟩
  · constructor
    · rintro ⟨apiKey, h⟩
      obtain ⟨b64, clientID, clientSecret, h1, h2, h3, hf⟩ := (key1 apiKey).mp h
      have hp := List.find?_some hf
      simp only [Bool.and_eq_true, beq_iff_eq] at hp
      exact ⟨b64, clientID, clientSecret, h1, h2, h3, apiKey, List.mem_of_find?_eq_some hf,
        hp.2, hp.1⟩
    · rintro ⟨b64, clientID, clientSecret, h1, h2, h3, key, hk, hid, hsec⟩
      cases hf : keys.find? (fun k => k.ClientSecret == clientSecret && k.ClientID == clientID) with
      | none =>
        have := List.find?_eq_none.mp hf key hk
        simp [hid, hsec] at this
      | some apiKey =>
        exact ⟨apiKey, (key1 apiKey).mpr ⟨b64, clientID, clientSecret, h1, h2, h3, hf⟩⟩
  · intro hno
    rcases RequireMerchantAuth_next_or_abort keys authHeader with h | h
    · exact absurd h hno
    · exact h
  · intro apiKey h
    obtain ⟨_, _, _, _, _, _, hf⟩ := (key1 apiKey).mp h
    exact List.mem_of_find?_eq_some hf

/-- Instance of C11: with the key `(a, bc)` stored, the header `Basic YTpiYw==` passes with
that key, and the header `Bearer YTpiYw==` is aborted with 401. -/
theorem requireMerchantAuth_passes_iff_witness :
    RequireMerchantAuth [⟨1, str "a", str "bc"⟩] (str "Basic YTpiYw==") =
      .Next ⟨1, str "a", str "bc"⟩ ∧
    (¬ ∃ apiKey, RequireMerchantAuth [⟨1, str "a", str "bc"⟩] (str "Bearer YTpiYw==") =
      .Next apiKey) ∧
    ∃ msg, RequireMerchantAuth [⟨1, str "a", str "bc"⟩] (str "Bearer YTpiYw==") =
      .Abort 401 msg :=
  have hno : ¬ ∃ apiKey, RequireMerchantAuth [⟨1, str "a", str "bc"⟩]
      (str "Bearer YTpiYw==") = .Next apiKey := by
    rintro ⟨apiKey, h⟩
    have habort : RequireMerchantAuth [⟨1, str "a", str "bc"⟩] (str "Bearer YTpiYw==") =
        .Abort 401 "认证格式错误" := by decide
    rw [habort] at h
    exact absurd h (by simp)
  ⟨((requireMerchantAuth_passes_iff [⟨1, str "a", str "bc"⟩] (str "Basic YTpiYw==")).1
      ⟨1, str "a", str "bc"⟩).mpr
      ⟨str "YTpiYw==", str "a", str "bc", by decide, by decide, by decide, by decide⟩,
   hno,
   (requireMerchantAuth_passes_iff [⟨1, str "a", str "bc"⟩] (str "Bearer YTpiYw==")).2.2.1 hno⟩

/-! ## Parsing of the `sub` claim -/

theorem decimal_foldl_ge (s : Bytes) :
    ∀ n : Nat, n ≤ s.foldl (fun n c => n * 10 + (c - 48)) n := by
  induction s with
  | nil => intro n; exact Nat.le_refl n
  | cons c rest ih =>
    intro n
    simp only [List.foldl_cons]
    exact Nat.le_trans (by omega) (ih (n * 10 + (c - 48)))

theorem parseUintLoop_nondigit (c : Nat) (rest : Bytes) (n : Nat)
    (h : ¬ (48 ≤ c ∧ c ≤ 57)) : parseUintLoop (c :: rest) n = none := by
  rw [parseUintLoop]
  simp only [h, if_false]
  split
  · rfl
  · rename_i d hd
    have hge : d ≥ 10 := by
      split at hd
      · simp only [Option.some.injEq] at hd
        omega
      · exact absurd hd (by simp)
    rw [if_pos hge]

theorem parseUintLoop_digit (c : Nat) (rest : Bytes) (n : Nat) (h : 48 ≤ c ∧ c ≤ 57)
    (hn : n < 18446744073709551616) :
    parseUintLoop (c :: rest) n =
      if n * 10 + (c - 48) < 18446744073709551616 then parseUintLoop rest (n * 10 + (c - 48))
      else none := by
  rw [parseUintLoop]
  simp only [h, and_self, if_true, maxUint64]
  rw [if_neg (by omega)]
  by_cases hcut : n ≥ 18446744073709551615 / 10 + 1
  · rw [if_pos hcut, if_neg (by omega)]
  · rw [if_neg hcut]
    have h10 : n * 10 % 18446744073709551616 = n * 10 := Nat.mod_eq_of_lt (by omega)
    rw [h10]
    by_cases hov : n * 10 + (c - 48) < 18446744073709551616
    · rw [Nat.mod_eq_of_lt hov, if_neg (by omega), if_pos hov]
    · rw [if_neg hov, if_pos]
      left
      omega

theorem parseUintLoop_eq_some_iff (s : Bytes) :
    ∀ n v : Nat, n < 18446744073709551616 →
      (parseUintLoop s n = some v ↔
        (∀ c ∈ s, 48 ≤ c ∧ c ≤ 57) ∧
          s.foldl (fun n c => n * 10 + (c - 48)) n < 18446744073709551616 ∧
          v = s.foldl (fun n c => n * 10 + (c - 48)) n) := by
  induction s with
  | nil =>
    intro n v hn
    rw [parseUintLoop]
    simp only [Option.some.injEq, List.not_mem_nil, false_implies, implies_true,
      List.foldl_nil, true_and]
    constructor
    · intro h; exact ⟨hn, h.symm⟩
    · intro h; exact h.2.symm
  | cons c rest ih =>
    intro n v hn
    by_cases hd : 48 ≤ c ∧ c ≤ 57
    · rw [parseUintLoop_digit c rest n hd hn]
      simp only [List.foldl_cons, List.mem_cons, forall_eq_or_imp]
      by_cases hov : n * 10 + (c - 48) < 18446744073709551616
      · rw [if_pos hov, ih _ v hov]
        constructor
        · rintro ⟨h1, h2, h3⟩
          exact ⟨⟨hd, h1⟩, h2, h3⟩
        · rintro ⟨⟨_, h1⟩, h2, h3⟩
          exact ⟨h1, h2, h3⟩
      · rw [if_neg hov]
        constructor
        · intro h
          exact absurd h (by simp)
        · rintro ⟨_, h2, _⟩
          have := decimal_foldl_ge rest (n * 10 + (c - 48))
          omega
    · rw [parseUintLoop_nondigit c rest n hd]
      constructor
      · intro h
        exact absurd h (by simp)
      · rintro ⟨h1, _⟩
        exact absurd (h1 c (List.mem_cons_self _ _)) hd

theorem ParseUint_eq_some_iff (s : Bytes) (v : Nat) :
    ParseUint s = some v ↔ IsUint64Decimal s ∧ v = decimalValue s := by
  unfold ParseUint IsUint64Decimal decimalValue
  by_cases hs : s = []
  · rw [if_pos hs]
    simp [hs]
  · rw [if_neg hs, parseUintLoop_eq_some_iff s 0 v (by norm_num)]
    constructor
    · rintro ⟨h1, h2, h3⟩
      exact ⟨⟨hs, h1, h2⟩, h3⟩
    · rintro ⟨⟨_, h1, h2⟩, h3⟩
      exact ⟨h1, h2, h3⟩

theorem ParseUint_eq_none_iff (s : Bytes) : ParseUint s = none ↔ ¬ IsUint64Decimal s := by
  constructor
  · intro h hv
    have := (ParseUint_eq_some_iff s (decimalValue s)).mpr ⟨hv, rfl⟩
    rw [h] at this
    exact absurd this (by simp)
  · intro h
    cases hp : ParseUint s with
    | none => rfl
    | some v => exact absurd ((ParseUint_eq_some_iff s v).mp hp).1 h

theorem ToOAuthUserInfo_of_valid {TL : Type} (toTrustLevel : Int → TL) (c : OIDCClaims)
    (h : IsUint64Decimal c.Sub) :
    c.ToOAuthUserInfo toTrustLevel =
      .ok { Id := decimalValue c.Sub,
            Username := if c.Username = [] then c.Login else c.Username,
            Name := c.Name, Active := c.Active, AvatarUrl := c.AvatarURL,
            TrustLevel := toTrustLevel c.TrustLevel } := by
  unfold OIDCClaims.ToOAuthUserInfo
  rw [(ParseUint_eq_some_iff c.Sub (decimalValue c.Sub)).mpr ⟨h, rfl⟩]

theorem ToOAuthUserInfo_of_invalid {TL : Type} (toTrustLevel : Int → TL) (c : OIDCClaims)
    (h : ¬ IsUint64Decimal c.Sub) :
    c.ToOAuthUserInfo toTrustLevel = .error (str "invalid sub claim: " ++ c.Sub) := by
  unfold OIDCClaims.ToOAuthUserInfo
  rw [(ParseUint_eq_none_iff c.Sub).mpr h]

/-- C12: `ToOAuthUserInfo` returns the error `"invalid sub claim: "` followed by the sub
exactly when `Sub` is not a base-10 unsigned integer that fits in 64 bits (and it returns
no other error); otherwise it returns a user info whose `Id` is the number `Sub`
writes. -/
theorem toOAuthUserInfo_error_iff {TL : Type} (toTrustLevel : Int → TL) (c : OIDCClaims) :
    (c.ToOAuthUserInfo toTrustLevel = .error (str "invalid sub claim: " ++ c.Sub) ↔
        ¬ IsUint64Decimal c.Sub) ∧
    ((∃ msg, c.ToOAuthUserInfo toTrustLevel = .error msg) ↔ ¬ IsUint64Decimal c.Sub) ∧
    (IsUint64Decimal c.Sub →
        ∃ info, c.ToOAuthUserInfo toTrustLevel = .ok info ∧ info.Id = decimalValue c.Sub) := by
  refine ⟨⟨?_, ToOAuthUserInfo_of_invalid toTrustLevel c⟩,
    ⟨?_, fun h => ⟨_, ToOAuthUserInfo_of_invalid toTrustLevel c h⟩⟩, ?_⟩
  · intro herr hv
    rw [ToOAuthUserInfo_of_valid toTrustLevel c hv] at herr
    exact absurd herr (by simp)
  · rintro ⟨msg, herr⟩ hv
    rw [ToOAuthUserInfo_of_valid toTrustLevel c hv] at herr
    exact absurd herr (by simp)
  · intro hv
    exact ⟨_, ToOAuthUserInfo_of_valid toTrustLevel c hv, rfl⟩

/-- Instance of C12: the sub `18446744073709551615` (the largest 64-bit value) is
accepted with that `Id`; the sub `18446744073709551616` is refused with the error text. -/
theorem toOAuthUserInfo_error_iff_witness :
    IsUint64Decimal (str "18446744073709551615") ∧
    ¬ IsUint64Decimal (str "18446744073709551616") ∧
    (∃ info, (OIDCClaims.mk (str "18446744073709551615") (str "u") [] [] [] [] true 2
        false).ToOAuthUserInfo (fun x => x) = .ok info ∧
      info.Id = decimalValue (str "18446744073709551615")) ∧
    decimalValue (str "18446744073709551615") = 18446744073709551615 ∧
    (OIDCClaims.mk (str "18446744073709551616") (str "u") [] [] [] [] true 2
        false).ToOAuthUserInfo (fun x => x) =
      .error (str "invalid sub claim: " ++ str "18446744073709551616") ∧
    str "invalid sub claim: " ++ str "18446744073709551616" =
      str "invalid sub claim: 18446744073709551616" :=
  have hv : IsUint64Decimal (str "18446744073709551615") :=
    ⟨by decide, by decide, by decide⟩
  have hi : ¬ IsUint64Decimal (str "18446744073709551616") :=
    fun h => absurd h.2.2 (by decide)
  ⟨hv, hi,
   (toOAuthUserInfo_error_iff (fun x => x)
      (OIDCClaims.mk (str "18446744073709551615") (str "u") [] [] [] [] true 2 false)).2.2 hv,
   by decide,
   (toOAuthUserInfo_error_iff (fun x => x)
      (OIDCClaims.mk (str "18446744073709551616") (str "u") [] [] [] [] true 2 false)).1.mpr hi,
   by decide⟩

/-- C13: for claims with a valid `Sub`, `ToOAuthUserInfo` sets `Username` to the claim's
`Username` when that is non-empty and to the claim's `Login` otherwise, copies `Name`,
`Active` and `AvatarURL` unchanged, sets `TrustLevel` to the conversion
`model.TrustLevel(c.TrustLevel)` of the claim's trust level, and returns the same result
whatever the `Email` and `Silenced` claims are. -/
theorem toOAuthUserInfo_fields {TL : Type} (toTrustLevel : Int → TL) (c : OIDCClaims)
    (email : Bytes) (silenced : Bool) (h : IsUint64Decimal c.Sub) :
    ∃ info, c.ToOAuthUserInfo toTrustLevel = .ok info ∧
      (c.Username ≠ [] → info.Username = c.Username) ∧
      (c.Username = [] → info.Username = c.Login) ∧
      info.Name = c.Name ∧ info.Active = c.Active ∧ info.AvatarUrl = c.AvatarURL ∧
      info.TrustLevel = toTrustLevel c.TrustLevel ∧
      ({ c with Email := email, Silenced := silenced } : OIDCClaims).ToOAuthUserInfo
          toTrustLevel = .ok info := by
  refine ⟨_, ToOAuthUserInfo_of_valid toTrustLevel c h, ?_, ?_, rfl, rfl, rfl, rfl, ?_⟩
  · intro hu
    simp only [hu, if_false]
  · intro hu
    simp only [hu, if_true]
  · exact ToOAuthUserInfo_of_valid toTrustLevel
      ({ c with Email := email, Silenced := silenced } : OIDCClaims) h

/-- Instance of C13: claims with sub `42`, no username and login `lg` give the user info
with `Id` 42 and `Username` `lg`, also after the `Email` and `Silenced` claims are
replaced. -/
theorem toOAuthUserInfo_fields_witness :
    IsUint64Decimal (str "42") ∧
    ∃ info : OAuthUserInfo Int,
      (OIDCClaims.mk (str "42") [] (str "lg") (str "N") (str "e") (str "av") true 3
          false).ToOAuthUserInfo (fun x => x) = .ok info ∧
      ((([] : Bytes) ≠ []) → info.Username = []) ∧
      ((([] : Bytes) = []) → info.Username = str "lg") ∧
      info.Name = str "N" ∧ info.Active = true ∧ info.AvatarUrl = str "av" ∧
      info.TrustLevel = 3 ∧
      (OIDCClaims.mk (str "42") [] (str "lg") (str "N") (str "other") (str "av") true 3
          true).ToOAuthUserInfo (fun x => x) = .ok info :=
  have hv : IsUint64Decimal (str "42") := ⟨by decide, by decide, by decide⟩
  ⟨hv, toOAuthUserInfo_fields (fun x => x)
    (OIDCClaims.mk (str "42") [] (str "lg") (str "N") (str "e") (str "av") true 3 false)
    (str "other") true hv⟩

end Credit
